import Mathlib

/-!
# Verification of the Binary Fuse Filter for Key-Value Maps

A shallow embedding, over `Nat` with explicit fixed-width wrapping, of the
C++ sources in `include/binary_fuse_filter/utils.hpp` and
`include/binary_fuse_filter/filter_for_kv_map.hpp` (the throwing-constructor
variant `bff_kv_map::bff_for_kv_map_t`).

Machine integers are modelled as `Nat` together with explicit reductions:
`uint8` arithmetic wraps modulo `2^8`, `uint32` modulo `2^32` and `uint64`
modulo `2^64`.  C++ unsigned subtraction `a - b` at width `w` is modelled by
`(a % 2^w + (2^w - b % 2^w)) % 2^w`.  The working buffers of the constructor
(`t2count`, `t2hash`, `alone`, `startPos`, `reverseOrder`, `reverseH`) are
modelled as total functions `Nat → Nat`; the `fingerprints` vector, which is
an observable field of the filter, is modelled as a `List Nat`.
-/

namespace BffKvMap

/-- `uint8` wrap-around reduction. -/
def w8 (x : Nat) : Nat := x % 2 ^ 8

/-- `uint32` wrap-around reduction. -/
def w32 (x : Nat) : Nat := x % 2 ^ 32

/-- `uint64` wrap-around reduction. -/
def w64 (x : Nat) : Nat := x % 2 ^ 64

/-- Wrapping `uint8` subtraction. -/
def sub8 (a b : Nat) : Nat := (a % 2 ^ 8 + (2 ^ 8 - b % 2 ^ 8)) % 2 ^ 8

/-- Wrapping `uint32` subtraction. -/
def sub32 (a b : Nat) : Nat := (a % 2 ^ 32 + (2 ^ 32 - b % 2 ^ 32)) % 2 ^ 32

/-- Wrapping `uint64` subtraction. -/
def sub64 (a b : Nat) : Nat := (a % 2 ^ 64 + (2 ^ 64 - b % 2 ^ 64)) % 2 ^ 64

/-- `bff_kv_map_utils::murmur64`: the MurmurHash3 64-bit finalizer, on a
`uint64` input (`h ^= h>>33; h *= 0xff51afd7ed558ccd; h ^= h>>33;
h *= 0xc4ceb9fe1a85ec53; h ^= h>>33`). -/
def murmur64 (h : Nat) : Nat :=
  let h1 := h ^^^ (h >>> 33)
  let h2 := (h1 * 0xff51afd7ed558ccd) % 2 ^ 64
  let h3 := h2 ^^^ (h2 >>> 33)
  let h4 := (h3 * 0xc4ceb9fe1a85ec53) % 2 ^ 64
  h4 ^^^ (h4 >>> 33)

/-- `bff_kv_map_utils::mix`: `murmur64(key + seed)` with wrapping 64-bit add. -/
def mix (key seed : Nat) : Nat := murmur64 ((key + seed) % 2 ^ 64)

/-- `bff_kv_map_utils::mod3`: `x > 2 ? x - 3 : x`. -/
def mod3 (x : Nat) : Nat := if x > 2 then x - 3 else x

/-- `bff_kv_map_utils::mulhi`: the high 64 bits of the 128-bit product of two
64-bit operands. -/
def mulhi (a b : Nat) : Nat := (a * b) >>> 64

/-- `bff_kv_map_utils::bff_key_t`: a 256-bit key held as four 64-bit words.
Key equality in the source (via the lexicographic three-way comparison used
by `std::set`) is word-wise equality, which is structural equality here. -/
structure bff_key_t where
  w0 : Nat
  w1 : Nat
  w2 : Nat
  w3 : Nat
deriving DecidableEq, Repr

/-- Word `i` of a key (`words[0..4]` in the source). -/
def bff_key_t.word (k : bff_key_t) : Nat → Nat
  | 0 => k.w0
  | 1 => k.w1
  | 2 => k.w2
  | _ => k.w3

/-- Reassemble a little-endian byte list into a natural number
(`bff_key_t::from_le_bytes`, and the `memcpy` reinterpretations). -/
def fromLEBytes (bs : List Nat) : Nat := bs.foldr (fun b acc => b % 256 + 256 * acc) 0

/-- 64-bit seed word `i` of the 32-byte seed
(the `memcpy` in `bff_kv_map_utils::mix256`). -/
def seedWord (seed : List Nat) (i : Nat) : Nat := fromLEBytes ((seed.drop (8 * i)).take 8)

/-- `bff_kv_map_utils::mix256`: fold the four key words against the four seed
words; the inner state runs through `murmur64(inner + mix(key[i], s[j]))`,
the outer accumulator adds with 64-bit wrap. -/
def mix256 (key : bff_key_t) (seed : List Nat) : Nat :=
  (List.range 4).foldl
    (fun outer i =>
      (outer + (List.range 4).foldl
        (fun inner j => murmur64 ((inner + mix (key.word i) (seedWord seed j)) % 2 ^ 64)) 0) % 2 ^ 64)
    0

/-- Helper for `are_all_keys_distinct`: walk the keys keeping the set of keys
seen so far (the source uses `std::set::insert` and fails on the first key
whose insertion reports an existing equal element). -/
def allKeysDistinctGo (seen : List bff_key_t) : List bff_key_t → Bool
  | [] => true
  | k :: rest => if seen.contains k then false else allKeysDistinctGo (k :: seen) rest

/-- `bff_kv_map_utils::are_all_keys_distinct`. -/
def are_all_keys_distinct (keys : List bff_key_t) : Bool := allKeysDistinctGo [] keys

/-- Exact-arithmetic rendering of the floating-point comparison
`(real value of) floor(log(size)/log(3.33) + 2.25) ≥ k`, i.e.
`(333/100)^(4k-9) ≤ size^4` cleared of denominators and negative exponents:
`333^(4k) * 100^9 ≤ size^4 * 333^9 * 100^(4k)`. -/
def segLenCond (size k : Nat) : Bool :=
  decide (333 ^ (4 * k) * 100 ^ 9 ≤ size ^ 4 * 333 ^ 9 * 100 ^ (4 * k))

/-- The shift amount `floor(log(size)/log(3.33) + 2.25)` of
`bff_kv_map_utils::calculate_segment_length` for arity 3, modelled in exact
real arithmetic (see `segLenCond`); the source computes it with IEEE
doubles.  The search bound 64 is far above any value reachable for a
`uint32` size. -/
def segLenShift (size : Nat) : Nat :=
  Nat.findGreatest (fun k => segLenCond size k = true) 64

/-- Exact-arithmetic rendering of
`(real value of) floor(log(size)/log(2.91) - 0.5) ≥ k`, i.e.
`(291/100)^(2k+1) ≤ size^2` cleared of denominators. -/
def segLenCond4 (size k : Nat) : Bool :=
  decide (291 ^ (2 * k + 1) ≤ size ^ 2 * 100 ^ (2 * k + 1))

/-- The shift amount `floor(log(size)/log(2.91) - 0.5)` for arity 4 (exact
real arithmetic model, see `segLenShift`). -/
def segLenShift4 (size : Nat) : Nat :=
  Nat.findGreatest (fun k => segLenCond4 size k = true) 64

/-- `bff_kv_map_utils::calculate_segment_length`.  `1U << shift` is a
`uint32`; shifts of 32 or more are undefined behaviour in C++ and are
modelled as wrapping. -/
def calculate_segment_length (arity size : Nat) : Nat :=
  if arity = 3 then w32 (2 ^ segLenShift size)
  else if arity = 4 then w32 (2 ^ segLenShift4 size)
  else 65536

/-- `round(size * calculate_size_factor(3, size))` for `size ≥ 2`, modelled
in exact real arithmetic.  The size factor is
`max(1.125, 0.875 + 0.25*log(10^6)/log(size))`; the maximum picks the left
branch exactly when `size > 10^6`, giving `round(9*size/8)` there.  For
`2 ≤ size ≤ 10^6`, `round(x) = floor(x + 1/2)` (positive argument) is the
greatest `m` with `8m - 4 - 7*size ≤ 2*size*log(10^6)/log(size)`, i.e. with
`size^(8m-4-7*size) ≤ 10^(12*size)` when `8m - 4 - 7*size > 0`. -/
def capacityOf (size : Nat) : Nat :=
  if size > 1000000 then (9 * size + 4) / 8
  else Nat.findGreatest
    (fun m => (8 * m ≤ 7 * size + 4 ∨ size ^ (8 * m - (4 + 7 * size)) ≤ 10 ^ (12 * size)))
    (6 * size)

/-- The derived segment geometry of a filter (the fields computed at
lines 69-91 of the constructor). -/
structure Geometry where
  segment_length : Nat
  segment_length_mask : Nat
  segment_count : Nat
  segment_count_length : Nat
  array_length : Nat
deriving DecidableEq, Repr

/-- The clamped segment length of the constructor:
`num_keys == 0 ? 4 : calculate_segment_length(3, n)`, then capped
at 262144. -/
def segLenOf (n : Nat) : Nat :=
  let sl0 := if n = 0 then 4 else calculate_segment_length 3 n
  if sl0 > 262144 then 262144 else sl0

/-- The normalized segment count: `initSegmentCount = (capacity + sl - 1) /
sl - 2` (all `uint32`, the subtraction wraps for small quotients), a first
`array_length`, then `segment_count = array_length ceil-div sl`, clamped to
1 when at most `arity - 1 = 2` and otherwise reduced by 2. -/
def scOf (sl c : Nat) : Nat :=
  let q := ((c + sl - 1) % 2 ^ 32) / sl
  let initSegmentCount := sub32 q 2
  let al0 := ((initSegmentCount + 2) * sl) % 2 ^ 32
  let sc0 := (al0 + sl - 1) / sl
  if sc0 ≤ 2 then 1 else sc0 - 2

/-- The geometry computation of the constructor, parameterized over the
already-computed `capacity` (`n ≤ 1` forces `capacity = 0` in the source;
otherwise the constructor uses `round(n * sizeFactor)`, see `capacityOf`).
All intermediates are `uint32`. -/
def geometryFrom (n capacity : Nat) : Geometry :=
  let sl := segLenOf n
  let sc := scOf sl capacity
  ⟨sl, sub32 sl 1, sc, (sc * sl) % 2 ^ 32, ((sc + 2) * sl) % 2 ^ 32⟩

/-- `bff_for_kv_map_t::hash_batch`: the three fingerprint indices derived
from a 64-bit hash.  `(uint32)hi`, the `+ segment_length` adds and the
xor-with-masked-windows are all `uint32` operations. -/
def hash_batch (g : Geometry) (hash : Nat) : Nat × Nat × Nat :=
  let hi := mulhi hash g.segment_count_length
  let h0 := hi % 2 ^ 32
  let h1a := (h0 + g.segment_length) % 2 ^ 32
  let h2a := (h1a + g.segment_length) % 2 ^ 32
  let h1 := h1a ^^^ ((hash >>> 18) % 2 ^ 32 &&& g.segment_length_mask)
  let h2 := h2a ^^^ (hash % 2 ^ 32 &&& g.segment_length_mask)
  (h0, h1, h2)

/-- Pointwise update of a function-modelled buffer (a C++ array store). -/
def upd (f : Nat → Nat) (i v : Nat) : Nat → Nat := fun j => if j = i then v else f j

/-- The `block_bits` loop of the constructor: starting from 1, increment
while `1 << block_bits < segment_count`.  The C++ loop terminates within 32
steps for any `uint32` count; 64 iterations of fuel are ample. -/
def blockBitsGo (sc : Nat) : Nat → Nat → Nat
  | 0, bb => bb
  | fuel + 1, bb => if 2 ^ bb < sc then blockBitsGo sc fuel (bb + 1) else bb

/-- `block_bits` for a given `segment_count`. -/
def blockBitsOf (sc : Nat) : Nat := blockBitsGo sc 64 1

/-- `startPos[i] = (uint32)(((uint64)i * n) >> block_bits)`, recomputed at
the start of every retry iteration. -/
def startPosInit (n blockBits : Nat) : Nat → Nat :=
  fun i => ((i * n) >>> blockBits) % 2 ^ 32

/-- State of Phase A (binned placement): the probe table `reverseOrder`
(with sentinel `reverseOrder[n] = 1`), the bin cursors `startPos`, and the
hash-to-value map `hm_keys` (whose `operator[]` defaults absent entries
to 0, hence a total function). -/
structure PhaseAState where
  reverseOrder : Nat → Nat
  startPos : Nat → Nat
  hm : Nat → Nat

/-- The probing loop of Phase A: advance the bin index (wrapping with
`maskblock`) while the slot under the bin cursor is non-empty.  The C++
`while` visits at most `block_size` distinct bins before cycling, so fuel
`maskblock + 2` is exact: exhaustion means the C++ loop never terminates. -/
def probeSlot (reverseOrder startPos : Nat → Nat) (maskblock : Nat) : Nat → Nat → Option Nat
  | 0, _ => none
  | fuel + 1, segIdx =>
    if reverseOrder (startPos segIdx) ≠ 0 then
      probeSlot reverseOrder startPos maskblock fuel ((segIdx + 1) &&& maskblock)
    else some segIdx

/-- One key of Phase A: hash the key, pick the bin from the leading
`block_bits` bits, probe for a free slot, store the hash there, advance the
bin cursor and record the hash-value pair. -/
def phaseAStep (seed : List Nat) (blockBits maskblock : Nat) (st : PhaseAState)
    (kv : bff_key_t × Nat) : Option PhaseAState :=
  let hash := mix256 kv.1 seed
  let segIdx0 := hash >>> (64 - blockBits)
  match probeSlot st.reverseOrder st.startPos maskblock (maskblock + 2) segIdx0 with
  | none => none
  | some segIdx =>
    let pos := st.startPos segIdx
    some ⟨upd st.reverseOrder pos hash, upd st.startPos segIdx (pos + 1), upd st.hm hash kv.2⟩

/-- Phase A over all key-value pairs. -/
def phaseA (seed : List Nat) (blockBits maskblock : Nat) :
    List (bff_key_t × Nat) → PhaseAState → Option PhaseAState
  | [], st => some st
  | kv :: rest, st =>
    match phaseAStep seed blockBits maskblock st kv with
    | none => none
    | some st' => phaseA seed blockBits maskblock rest st'

/-- State of Phase B: the packed degree/slot counters `t2count` (`uint8`),
the XOR accumulators `t2hash` (`uint64`), and the overflow flag `error`. -/
structure PhaseBState where
  t2count : Nat → Nat
  t2hash : Nat → Nat
  error : Bool

/-- Zeroed Phase B state (buffers are freshly cleared at each attempt). -/
def phaseBInit : PhaseBState := ⟨fun _ => 0, fun _ => 0, false⟩

/-- One key of Phase B: `t2count[h0] += 4; t2hash[h0] ^= h;
t2count[h1] += 4; t2count[h1] ^= 1; t2hash[h1] ^= h; t2count[h2] += 4;
t2hash[h2] ^= h; t2count[h2] ^= 2;` then
`error = (t2count[h0] < 4) || (t2count[h1] < 4) || (t2count[h2] < 4)`
(a plain assignment: the flag from earlier keys is overwritten). -/
def phaseBStep (g : Geometry) (st : PhaseBState) (hash : Nat) : PhaseBState :=
  let hb := hash_batch g hash
  let h0 := hb.1
  let h1 := hb.2.1
  let h2 := hb.2.2
  let c1 := upd st.t2count h0 ((st.t2count h0 + 4) % 2 ^ 8)
  let x1 := upd st.t2hash h0 (st.t2hash h0 ^^^ hash)
  let c2 := upd c1 h1 ((c1 h1 + 4) % 2 ^ 8)
  let c3 := upd c2 h1 (c2 h1 ^^^ 1)
  let x2 := upd x1 h1 (x1 h1 ^^^ hash)
  let c4 := upd c3 h2 ((c3 h2 + 4) % 2 ^ 8)
  let x3 := upd x2 h2 (x2 h2 ^^^ hash)
  let c5 := upd c4 h2 (c4 h2 ^^^ 2)
  ⟨c5, x3, (c5 h0 < 4) || (c5 h1 < 4) || (c5 h2 < 4)⟩

/-- Phase B over a list of stored hashes (the prefix `reverseOrder[0..n)`
left by Phase A), from freshly zeroed buffers. -/
def phaseB (g : Geometry) (hashes : List Nat) : PhaseBState :=
  hashes.foldl (phaseBStep g) phaseBInit

/-- The per-key overflow test of Phase B: the state of the `error` flag
immediately after key `i`'s own writes, i.e. after processing the prefix of
length `i + 1`. -/
def phaseBCheckAt (g : Geometry) (hashes : List Nat) (i : Nat) : Bool :=
  (phaseB g (hashes.take (i + 1))).error

/-- Seeding of the peeling queue: push (in index order) every slot whose
edge count `t2count[i] >> 2` is exactly 1; returns `(alone, Qsize)`. -/
def peelInit (g : Geometry) (st : PhaseBState) : (Nat → Nat) × Nat :=
  (List.range g.array_length).foldl
    (fun acc i => (upd acc.1 acc.2 i, acc.2 + if st.t2count i >>> 2 = 1 then 1 else 0))
    (fun _ => 0, 0)

/-- The rotated slot table of the peeling loop:
`h012[1] = h1, h012[2] = h2, h012[3] = h0, h012[4] = h1` (`h012[0]` is left
stale; an index above 4 would be out of bounds in C++ and is mapped to the
last stored value here). -/
def h012peel (h0 h1 h2 : Nat) : Nat → Nat :=
  fun j => if j = 1 then h1 else if j = 2 then h2 else if j = 3 then h0 else h1

/-- State of Phase C.  `stackHash`/`stackH` are the peeling stack
(`reverseOrder`/`reverseH` reused in the source). -/
structure PeelState where
  t2count : Nat → Nat
  t2hash : Nat → Nat
  alone : Nat → Nat
  qsize : Nat
  stackHash : Nat → Nat
  stackH : Nat → Nat
  stacksize : Nat

/-- The peeling loop (Phase C): pop a queued slot; if its degree is still 1,
record its hash and slot tag on the stack and detach the edge from its two
other endpoints, queueing each endpoint whose degree drops to 1.  Fuel
bounds the number of pops; the supplied fuel exceeds every possible number
of queue pushes. -/
def peelLoop (g : Geometry) : Nat → PeelState → PeelState
  | 0, st => st
  | fuel + 1, st =>
    if st.qsize = 0 then st
    else
      let q := st.qsize - 1
      let index := st.alone q
      if st.t2count index >>> 2 = 1 then
        let hash := st.t2hash index
        let found := st.t2count index &&& 3
        let stackHash := upd st.stackHash st.stacksize hash
        let stackH := upd st.stackH st.stacksize found
        let hb := hash_batch g hash
        let h012 := h012peel hb.1 hb.2.1 hb.2.2
        let oi1 := h012 (found + 1)
        let alone1 := upd st.alone q oi1
        let q1 := q + if st.t2count oi1 >>> 2 = 2 then 1 else 0
        let c1 := upd st.t2count oi1 (sub8 (st.t2count oi1) 4 ^^^ mod3 (found + 1))
        let x1 := upd st.t2hash oi1 (st.t2hash oi1 ^^^ hash)
        let oi2 := h012 (found + 2)
        let alone2 := upd alone1 q1 oi2
        let q2 := q1 + if c1 oi2 >>> 2 = 2 then 1 else 0
        let c2 := upd c1 oi2 (sub8 (c1 oi2) 4 ^^^ mod3 (found + 2))
        let x2 := upd x1 oi2 (x1 oi2 ^^^ hash)
        peelLoop g fuel ⟨c2, x2, alone2, q2, stackHash, stackH, st.stacksize + 1⟩
      else
        peelLoop g fuel ⟨st.t2count, st.t2hash, st.alone, q, st.stackHash, st.stackH, st.stacksize⟩

/-- Phases B and C of one retry iteration, on the hash list produced by
Phase A: returns the peeling stack when the iteration succeeds
(`stacksize == n`), `none` when the iteration is declared failed (overflow
flag, or incomplete peel) and the retry loop continues with cleared
buffers. -/
def runAttemptCore (g : Geometry) (n : Nat) (hashes : List Nat) :
    Option ((Nat → Nat) × (Nat → Nat)) :=
  let bstate := phaseB g hashes
  if bstate.error then none
  else
    let qi := peelInit g bstate
    let final := peelLoop g (g.array_length + 2 * n + 1)
      ⟨bstate.t2count, bstate.t2hash, qi.1, qi.2, fun _ => 0, fun _ => 0, 0⟩
    if final.stacksize = n then some (final.stackHash, final.stackH) else none

/-- One retry iteration: Phase A from fresh buffers (with the sentinel
`reverseOrder[n] = 1` and recomputed `startPos`), then Phases B and C.
`hm_keys` persists across iterations in the source and is threaded
through. -/
def runAttempt (seed : List Nat) (kvs : List (bff_key_t × Nat)) (n : Nat) (g : Geometry)
    (blockBits : Nat) (hm0 : Nat → Nat) : (Nat → Nat) × Option ((Nat → Nat) × (Nat → Nat)) :=
  let maskblock := 2 ^ blockBits - 1
  let ro0 : Nat → Nat := fun j => if j = n then 1 else 0
  match phaseA seed blockBits maskblock kvs ⟨ro0, startPosInit n blockBits, hm0⟩ with
  | none => (hm0, none)
  | some st => (st.hm, runAttemptCore g n ((List.range n).map st.reverseOrder))

/-- `BFF_FOR_KV_MAP_MAX_CREATE_ATTEMPT_COUNT`. -/
def BFF_FOR_KV_MAP_MAX_CREATE_ATTEMPT_COUNT : Nat := 100

/-- The bounded retry loop of the constructor. -/
def constructLoop (seed : List Nat) (kvs : List (bff_key_t × Nat)) (n : Nat) (g : Geometry)
    (blockBits : Nat) : Nat → (Nat → Nat) → Option ((Nat → Nat) × (Nat → Nat) × (Nat → Nat))
  | 0, _ => none
  | fuel + 1, hm =>
    match runAttempt seed kvs n g blockBits hm with
    | (hm', some s) => some (s.1, s.2, hm')
    | (hm', none) => constructLoop seed kvs n g blockBits fuel hm'

/-- The rotated slot table of the back-fill loop:
`h012[0] = h0, h012[1] = h1, h012[2] = h2, h012[3] = h0, h012[4] = h1`. -/
def h012fill (h0 h1 h2 : Nat) : Nat → Nat :=
  fun j => if j = 0 then h0 else if j = 1 then h1 else if j = 2 then h2
           else if j = 3 then h0 else h1

/-- One step of the back-fill (Phase D).  The subtraction chain
`(value % p) - fingerprints[..] - fingerprints[..]` runs in `uint64`
(`value` and the table entries promote against the `uint64` modulus), its
`% p` residue narrows to the `uint32` local `entry`; `entry - mask` wraps
at 32 bits before the final `% p`. -/
def backfillStep (g : Geometry) (p lab : Nat) (hm : Nat → Nat) (F : List Nat)
    (hash found : Nat) : List Nat :=
  let value := hm hash
  let hb := hash_batch g hash
  let h012 := h012fill hb.1 hb.2.1 hb.2.2
  let fa := F.getD (h012 (found + 1)) 0
  let fb := F.getD (h012 (found + 2)) 0
  let entry := (sub64 (sub64 (value % p) fa) fb % p) % 2 ^ 32
  let mask := (mix hash lab % p) % 2 ^ 32
  F.set (h012 found) (sub32 entry mask % p)

/-- The back-fill loop (Phase D): walk the stack from index `n-1` down
to 0, assigning one fingerprint per stack entry into a zero-initialized
table of `array_length` `uint32` cells. -/
def backfill (g : Geometry) (p lab : Nat) (hm stackHash stackH : Nat → Nat) (n : Nat) :
    List Nat :=
  (List.range n).reverse.foldl
    (fun F i => backfillStep g p lab hm F (stackHash i) (stackH i))
    (List.replicate g.array_length 0)

/-- The error conditions of the constructor: the three argument checks
throw `std::runtime_error` with distinct messages, and exhausting the
retry budget throws the construction-failure message. -/
inductive BffError where
  | lengthMismatch
  | duplicateKeys
  | modulusTooSmall
  | constructionFailed
deriving DecidableEq, Repr

/-- Argument errors are permanent (not retriable with the same arguments);
only `constructionFailed` is the stochastic peeling-exhausted failure. -/
def BffError.isArgumentError : BffError → Bool
  | .constructionFailed => false
  | _ => true

/-- `bff_kv_map::bff_for_kv_map_t`: the observable fields of a filter. -/
structure bff_for_kv_map_t where
  seed : List Nat
  num_keys_in_kv_map : Nat
  plaintext_modulo : Nat
  label : Nat
  segment_length : Nat
  segment_length_mask : Nat
  segment_count : Nat
  segment_count_length : Nat
  array_length : Nat
  fingerprints : List Nat
deriving DecidableEq, Repr

/-- The geometry view of a filter's fields. -/
def bff_for_kv_map_t.geom (f : bff_for_kv_map_t) : Geometry :=
  ⟨f.segment_length, f.segment_length_mask, f.segment_count, f.segment_count_length,
   f.array_length⟩

/-- The building constructor
`bff_for_kv_map_t(seed_bytes, keys, values, plaintext_modulo, label)`:
argument checks, geometry, the bounded retry loop (Phases A-C), then the
back-fill.  The `uint32` member `num_keys_in_kv_map` narrows `keys.size()`
modulo `2^32`.  Exceptions are modelled as `Except.error`. -/
def construct (seed : List Nat) (keys : List bff_key_t) (values : List Nat)
    (p lab : Nat) : Except BffError bff_for_kv_map_t :=
  if keys.length ≠ values.length then .error .lengthMismatch
  else if are_all_keys_distinct keys = false then .error .duplicateKeys
  else if p < 256 then .error .modulusTooSmall
  else
    let n := keys.length % 2 ^ 32
    let g := geometryFrom n (if n ≤ 1 then 0 else capacityOf n)
    let blockBits := blockBitsOf g.segment_count
    let kvs := (keys.zip values).take n
    match constructLoop seed kvs n g blockBits BFF_FOR_KV_MAP_MAX_CREATE_ATTEMPT_COUNT
        (fun _ => 0) with
    | none => .error .constructionFailed
    | some s =>
      .ok ⟨seed, n, p, lab, g.segment_length, g.segment_length_mask, g.segment_count,
           g.segment_count_length, g.array_length, backfill g p lab s.2.2 s.1 s.2.1 n⟩

/-- `bff_for_kv_map_t::recover`: the sum of the three fingerprint cells and
the `uint32` adds wrap at 32 bits before the final `% p`. -/
def recover (f : bff_for_kv_map_t) (key : bff_key_t) : Nat :=
  let hash := mix256 key f.seed
  let hb := hash_batch f.geom hash
  let data := (f.fingerprints.getD hb.1 0 + f.fingerprints.getD hb.2.1 0 +
               f.fingerprints.getD hb.2.2 0) % 2 ^ 32
  let mask := (mix hash f.label % f.plaintext_modulo) % 2 ^ 32
  ((data + mask) % 2 ^ 32) % f.plaintext_modulo

/-- `bff_for_kv_map_t::serialized_num_bytes`:
`32 + 4 + 8 + 8 + 4 + 4 + 4 + 4 + fingerprints.size() * 4`. -/
def serialized_num_bytes (f : bff_for_kv_map_t) : Nat :=
  32 + 4 + 8 + 8 + 4 + 4 + 4 + 4 + f.fingerprints.length * 4

/-- Little-endian byte image of the low `numBytes` bytes of `x` (the
`memcpy` of an unsigned field on a little-endian target): least
significant byte first. -/
def toLEBytes : Nat → Nat → List Nat
  | 0, _ => []
  | m + 1, x => x % 256 :: toLEBytes m (x / 256)

/-- The byte image written by `bff_for_kv_map_t::serialize`: the fields in
declaration order, then `array_length * 4` bytes of fingerprint cells
(cells beyond `fingerprints.size()` would be an out-of-bounds read in C++
and are modelled as 0). -/
def serializeBytes (f : bff_for_kv_map_t) : List Nat :=
  f.seed ++ toLEBytes 4 f.num_keys_in_kv_map ++ toLEBytes 8 f.plaintext_modulo ++
  toLEBytes 8 f.label ++ toLEBytes 4 f.segment_length ++ toLEBytes 4 f.segment_count ++
  toLEBytes 4 f.segment_count_length ++ toLEBytes 4 f.array_length ++
  ((List.range f.array_length).map fun i => toLEBytes 4 (f.fingerprints.getD i 0)).flatten

/-- `bff_for_kv_map_t::serialize`: fails (returns `false`, here `none`)
exactly when the supplied buffer size differs from
`serialized_num_bytes()`; otherwise writes `serializeBytes`. -/
def serialize (f : bff_for_kv_map_t) (bufLen : Nat) : Option (List Nat) :=
  if bufLen ≠ serialized_num_bytes f then none else some (serializeBytes f)

/-- Read `numBytes` little-endian bytes at `off`.  Reads past the end of
the buffer are out of bounds in C++ (no check exists in the source) and
are modelled as zero bytes. -/
def readLE (bytes : List Nat) (off numBytes : Nat) : Nat :=
  fromLEBytes ((bytes.drop off).take numBytes)

/-- The deserializing constructor `bff_for_kv_map_t(std::span<const
uint8_t>)`: reads the fields at their fixed offsets and then
`array_length * 4` fingerprint bytes, trusting the embedded
`array_length`.  It performs no size validation whatsoever; a short or
header-inconsistent buffer is read out of bounds (undefined behaviour in
C++, modelled as zero bytes) rather than rejected.
`segment_length_mask` is recomputed as `segment_length - 1` (`uint32`). -/
def deserialize (bytes : List Nat) : bff_for_kv_map_t :=
  let sl := readLE bytes 52 4
  let al := readLE bytes 64 4
  ⟨(List.range 32).map (fun i => bytes.getD i 0),
   readLE bytes 32 4, readLE bytes 36 8, readLE bytes 44 8,
   sl, sub32 sl 1, readLE bytes 56 4, readLE bytes 60 4, al,
   (List.range al).map fun i => readLE bytes (68 + 4 * i) 4⟩

/-! ## Concrete instances -/

/-- A 32-byte all-zero seed. -/
def exSeed : List Nat := List.replicate 32 0

/-- The 256-bit key whose words are `(1, 0, 0, 0)`. -/
def exKey : bff_key_t := ⟨1, 0, 0, 0⟩

/-- The filter produced by `construct exSeed [exKey] [0] 257 0`: geometry
`segment_length = 4`, `segment_count = 1`, `array_length = 12`; the single
key hashes to `6958928095123392589` with slots `(1, 5, 8)` and mask
`mix(hash, 0) % 257 = 244`, so the back-fill stores
`(0 - 244) mod 2^32 mod 257 = (2^32 - 244) % 257 = 14` at slot 8. -/
def exFilter : bff_for_kv_map_t :=
  ⟨exSeed, 1, 257, 0, 4, 3, 1, 4, 12, [0, 0, 0, 0, 0, 0, 0, 0, 14, 0, 0, 0]⟩

/-- The geometry the constructor derives for 65 keys:
`segment_length = 32`, `segment_count = 2`, `segment_count_length = 64`,
`array_length = 128` (equal to `geometryFrom 65 (capacityOf 65)`). -/
def c4Geom : Geometry := ⟨32, 31, 2, 64, 128⟩

/-- 64 distinct hashes `(j+1) * 2^24` that all map to the slot triple
`(0, 32, 64)` of `c4Geom` (their bits 58.., 18..22 and 0..4 are all zero).
Processing them all adds `64 * 4 = 256 ≡ 0 (mod 2^8)` to `t2count[0]`:
the 64th key's own-write check sees `t2count[0] = 0 < 4`. -/
def c4ErrHashes : List Nat := (List.range 64).map fun j => (j + 1) * 2 ^ 24

/-- `c4ErrHashes` followed by hash 1 (slots `(0, 32, 65)`): the final key's
own-write check sees `t2count[0] = 4`, `t2count[32] = 5`, `t2count[65] = 6`
and leaves the error flag false although key 63 overflowed. -/
def c4Hashes : List Nat := c4ErrHashes ++ [1]

/-! ## General lemmas -/

/-- `recover` ends in `% plaintext_modulo`, so its result is below any
positive modulus. -/
theorem recover_lt_modulo (f : bff_for_kv_map_t) (key : bff_key_t)
    (hp : 0 < f.plaintext_modulo) : recover f key < f.plaintext_modulo := by
  unfold recover
  exact Nat.mod_lt _ hp

/-! ## Geometry lemmas -/

/-- A true `segLenCond` forces a positive size. -/
theorem segLenCond_pos (size k : Nat) (h : segLenCond size k = true) : 0 < size := by
  rcases Nat.eq_zero_or_pos size with h0 | h0
  · subst h0
    rw [segLenCond, decide_eq_true_eq] at h
    have hp : 0 < 333 ^ (4 * k) * 100 ^ 9 := by positivity
    simp only [ne_eq, OfNat.ofNat_ne_zero, not_false_eq_true, zero_pow, zero_mul] at h
    omega
  · exact h0

/-- `segLenCond` holds at 2 for every positive size (the floor is at
least 2). -/
theorem segLenCond_two (size : Nat) (hs : 0 < size) : segLenCond size 2 = true := by
  rw [segLenCond, decide_eq_true_eq]
  have h1 : 1 ≤ size ^ 4 := Nat.one_le_pow 4 size hs
  calc 333 ^ (4 * 2) * 100 ^ 9 ≤ 1 * (333 ^ 9 * 100 ^ (4 * 2)) := by norm_num
  _ ≤ size ^ 4 * (333 ^ 9 * 100 ^ (4 * 2)) := Nat.mul_le_mul_right _ h1
  _ = size ^ 4 * 333 ^ 9 * 100 ^ (4 * 2) := by ring

/-- The defining property of `segLenCond`: it is the comparison
`k ≤ log(size)/log(3.33) + 2.25` over the reals. -/
theorem segLenCond_iff (size k : Nat) (hs : 0 < size) :
    segLenCond size k = true ↔
      (k : ℝ) ≤ Real.log size / Real.log (333 / 100) + 9 / 4 := by
  have hs0 : (0 : ℝ) < (size : ℝ) := by exact_mod_cast hs
  have hc0 : (0 : ℝ) < 333 / 100 := by norm_num
  have hlc : 0 < Real.log (333 / 100) := Real.log_pos (by norm_num)
  have step1 : segLenCond size k = true ↔
      (333 : ℝ) ^ (4 * k) * 100 ^ 9 ≤ (size : ℝ) ^ 4 * 333 ^ 9 * 100 ^ (4 * k) := by
    rw [segLenCond, decide_eq_true_eq]
    exact_mod_cast Iff.rfl
  have ezpow : ∀ m : Nat, ((333 : ℝ) / 100) ^ (m : ℤ) = 333 ^ m / 100 ^ m := by
    intro m
    rw [zpow_natCast, div_pow]
  have step2 : (333 : ℝ) ^ (4 * k) * 100 ^ 9 ≤ (size : ℝ) ^ 4 * 333 ^ 9 * 100 ^ (4 * k) ↔
      ((333 : ℝ) / 100) ^ ((4 * k : ℤ)) ≤ (size : ℝ) ^ 4 * ((333 : ℝ) / 100) ^ (9 : ℤ) := by
    rw [show ((4 * k : ℤ)) = ((4 * k : ℕ) : ℤ) from by push_cast ; ring]
    rw [show ((9 : ℤ)) = ((9 : ℕ) : ℤ) from rfl]
    rw [ezpow, ezpow, ← mul_div_assoc, div_le_div_iff₀ (by positivity) (by positivity)]
  have step3 : ((333 : ℝ) / 100) ^ ((4 * k : ℤ) - 9) ≤ (size : ℝ) ^ 4 ↔
      ((333 : ℝ) / 100) ^ ((4 * k : ℤ)) ≤ (size : ℝ) ^ 4 * ((333 : ℝ) / 100) ^ (9 : ℤ) := by
    rw [zpow_sub₀ (ne_of_gt hc0), div_le_iff₀ (by positivity)]
  have step4 : ((333 : ℝ) / 100) ^ ((4 * k : ℤ) - 9) ≤ (size : ℝ) ^ 4 ↔
      (k : ℝ) ≤ Real.log size / Real.log (333 / 100) + 9 / 4 := by
    rw [← Real.log_le_log_iff (zpow_pos hc0 _) (by positivity), Real.log_zpow, Real.log_pow]
    rw [← sub_le_iff_le_add, le_div_iff₀ hlc]
    constructor <;> intro h
    · push_cast at h
      linarith
    · push_cast
      linarith
  exact step1.trans (step2.trans (step3.symm.trans step4))

/-- For a `uint32` key count the shift never exceeds 21. -/
theorem segLenShift_le_21 (size : Nat) (h2 : size < 2 ^ 32) : segLenShift size ≤ 21 := by
  by_contra hgt
  push_neg at hgt
  have hP : segLenCond size (segLenShift size) = true :=
    Nat.findGreatest_of_ne_zero
      (show Nat.findGreatest (fun k => segLenCond size k = true) 64 = segLenShift size from rfl)
      (by omega)
  have hs : 0 < size := segLenCond_pos _ _ hP
  have hx := (segLenCond_iff size (segLenShift size) hs).1 hP
  have h22 : segLenCond size 22 = true := by
    rw [segLenCond_iff size 22 hs]
    have h22' : (22 : ℝ) ≤ (segLenShift size : ℝ) := by exact_mod_cast hgt
    linarith
  rw [segLenCond, decide_eq_true_eq] at h22
  have hub : size ^ 4 ≤ (2 ^ 32 - 1) ^ 4 := Nat.pow_le_pow_left (by omega) 4
  have hcontra : 333 ^ (4 * 22) * 100 ^ 9 ≤ (2 ^ 32 - 1) ^ 4 * 333 ^ 9 * 100 ^ (4 * 22) :=
    le_trans h22 (Nat.mul_le_mul_right _ (Nat.mul_le_mul_right _ hub))
  norm_num at hcontra

/-- `segLenShift` is the integer floor of `log(size)/log(3.33) + 2.25`,
and is at least 2. -/
theorem segLenShift_eq_floor (size : Nat) (hs : 0 < size) (h2 : size < 2 ^ 32) :
    (segLenShift size : ℤ) = ⌊Real.log size / Real.log (333 / 100) + 9 / 4⌋ ∧
      2 ≤ segLenShift size := by
  have hge2 : 2 ≤ segLenShift size :=
    Nat.le_findGreatest (by norm_num) (segLenCond_two size hs)
  have hle : segLenShift size ≤ 21 := segLenShift_le_21 size h2
  have hP : segLenCond size (segLenShift size) = true :=
    Nat.findGreatest_of_ne_zero
      (show Nat.findGreatest (fun k => segLenCond size k = true) 64 = segLenShift size from rfl)
      (by omega)
  have hnP : ¬segLenCond size (segLenShift size + 1) = true :=
    Nat.findGreatest_is_greatest
      (show Nat.findGreatest (fun k => segLenCond size k = true) 64 < segLenShift size + 1 from
        Nat.lt_succ_self _)
      (by omega)
  refine ⟨?_, hge2⟩
  rw [eq_comm, Int.floor_eq_iff]
  constructor
  · have hx := (segLenCond_iff size (segLenShift size) hs).1 hP
    exact_mod_cast hx
  · by_contra hlt
    push_neg at hlt
    exact hnP ((segLenCond_iff size (segLenShift size + 1) hs).2 (by push_cast at hlt ⊢ ; linarith))

/-- The clamped segment length for a positive `uint32` key count is
`2 ^ min (segLenShift n) 18`. -/
theorem segLenOf_eq (n : Nat) (h1 : 0 < n) (h2 : n < 2 ^ 32) :
    segLenOf n = 2 ^ min (segLenShift n) 18 := by
  have hle21 : segLenShift n ≤ 21 := segLenShift_le_21 n h2
  have hpow : 2 ^ segLenShift n < 2 ^ 32 :=
    lt_of_le_of_lt (Nat.pow_le_pow_right (by norm_num) hle21) (by norm_num)
  have hsl0 : (if n = 0 then 4 else calculate_segment_length 3 n) = 2 ^ segLenShift n := by
    rw [if_neg (by omega)]
    rw [calculate_segment_length, if_pos rfl, w32, Nat.mod_eq_of_lt hpow]
  rw [segLenOf]
  rw [hsl0]
  rcases le_or_lt (segLenShift n) 18 with h | h
  · rw [if_neg, min_eq_left h]
    have : (2 : Nat) ^ segLenShift n ≤ 2 ^ 18 := Nat.pow_le_pow_right (by norm_num) h
    omega
  · have h19 : (2 : Nat) ^ 19 ≤ 2 ^ segLenShift n :=
      Nat.pow_le_pow_right (by norm_num) (by omega)
    rw [if_pos (by omega), min_eq_right (by omega)]
    norm_num

/-- The segment length is a power of two with exponent at most 18, for
every `uint32` key count (n = 0 gives 4). -/
theorem segLenOf_pow (n : Nat) (h2 : n < 2 ^ 32) :
    ∃ k, k ≤ 18 ∧ segLenOf n = 2 ^ k := by
  rcases Nat.eq_zero_or_pos n with h0 | h0
  · subst h0
    exact ⟨2, by norm_num, rfl⟩
  · exact ⟨min (segLenShift n) 18, by omega, segLenOf_eq n h0 h2⟩

/-- **C7**: for every positive `uint32` key count `n` and every capacity
`c` (the capacity is computed from `n` by a double-precision rounding, see
`capacityOf`; every conjunct below holds for every possible value, so the
rounding is irrelevant): the segment length is the clamped power of two
`min(1 << floor(log n / log 3.33 + 2.25), 262144)` — the floor taken over
the reals — and the stored `uint32` fields satisfy
`array_length = (segment_count + 2) * segment_length` and
`segment_count_length = segment_count * segment_length` (wrapping
reductions included, as the fields are `uint32`). -/
theorem geometry_of_constructor (n c : Nat) (h1 : 0 < n) (h2 : n < 2 ^ 32) :
    (∃ k, k ≤ 18 ∧ (geometryFrom n c).segment_length = 2 ^ k) ∧
    (geometryFrom n c).segment_length ≤ 262144 ∧
    (geometryFrom n c).array_length =
      ((geometryFrom n c).segment_count + 2) * (geometryFrom n c).segment_length % 2 ^ 32 ∧
    (geometryFrom n c).segment_count_length =
      (geometryFrom n c).segment_count * (geometryFrom n c).segment_length % 2 ^ 32 ∧
    (geometryFrom n c).segment_length =
      min (2 ^ (⌊Real.log n / Real.log (333 / 100) + 9 / 4⌋.toNat)) 262144 := by
  obtain ⟨hfloor, hge2⟩ := segLenShift_eq_floor n h1 h2
  have hsl : (geometryFrom n c).segment_length = 2 ^ min (segLenShift n) 18 :=
    segLenOf_eq n h1 h2
  have htn : (⌊Real.log n / Real.log (333 / 100) + 9 / 4⌋).toNat = segLenShift n := by
    rw [← hfloor, Int.toNat_natCast]
  refine ⟨⟨min (segLenShift n) 18, by omega, hsl⟩, ?_, rfl, rfl, ?_⟩
  · rw [hsl]
    calc (2 : Nat) ^ min (segLenShift n) 18 ≤ 2 ^ 18 :=
      Nat.pow_le_pow_right (by norm_num) (by omega)
    _ = 262144 := by norm_num
  · rw [hsl, htn]
    rcases le_or_lt (segLenShift n) 18 with h | h
    · rw [min_eq_left h, min_eq_left]
      calc (2 : Nat) ^ segLenShift n ≤ 2 ^ 18 := Nat.pow_le_pow_right (by norm_num) h
      _ = 262144 := by norm_num
    · rw [min_eq_right (by omega : (18 : Nat) ≤ segLenShift n), min_eq_right]
      · norm_num
      · calc (262144 : Nat) = 2 ^ 18 := by norm_num
        _ ≤ 2 ^ segLenShift n := Nat.pow_le_pow_right (by norm_num) (by omega)

/-- Witness for C7 at `n = 4`, `c = 7`. -/
theorem geometry_of_constructor_witness :
    (∃ k, k ≤ 18 ∧ (geometryFrom 4 7).segment_length = 2 ^ k) ∧
    (geometryFrom 4 7).segment_length ≤ 262144 ∧
    (geometryFrom 4 7).array_length =
      ((geometryFrom 4 7).segment_count + 2) * (geometryFrom 4 7).segment_length % 2 ^ 32 ∧
    (geometryFrom 4 7).segment_count_length =
      (geometryFrom 4 7).segment_count * (geometryFrom 4 7).segment_length % 2 ^ 32 ∧
    (geometryFrom 4 7).segment_length =
      min (2 ^ (⌊Real.log 4 / Real.log (333 / 100) + 9 / 4⌋.toNat)) 262144 :=
  geometry_of_constructor 4 7 (by norm_num) (by norm_num)

/-- XOR with a value below `2^k` cannot leave an aligned window: if
`a < M * 2^k` and `y < 2^k` then `a ^^^ y < M * 2^k`. -/
theorem xor_lt_of_low (a y M k : Nat) (hy : y < 2 ^ k) (ha : a < M * 2 ^ k) :
    a ^^^ y < M * 2 ^ k := by
  have hdiv : (a ^^^ y) / 2 ^ k = a / 2 ^ k := by
    rw [← Nat.shiftRight_eq_div_pow, ← Nat.shiftRight_eq_div_pow]
    apply Nat.eq_of_testBit_eq
    intro i
    rw [Nat.testBit_shiftRight, Nat.testBit_shiftRight, Nat.testBit_xor,
      Nat.testBit_eq_false_of_lt
        (lt_of_lt_of_le hy (Nat.pow_le_pow_right (by norm_num) (Nat.le_add_right k i)))]
    simp
  have h1 : a / 2 ^ k < M := (Nat.div_lt_iff_lt_mul (by positivity)).2 ha
  have h2 : (a ^^^ y) % 2 ^ k < 2 ^ k := Nat.mod_lt _ (by positivity)
  calc a ^^^ y = 2 ^ k * ((a ^^^ y) / 2 ^ k) + (a ^^^ y) % 2 ^ k :=
        (Nat.div_add_mod _ _).symm
  _ = 2 ^ k * (a / 2 ^ k) + (a ^^^ y) % 2 ^ k := by rw [hdiv]
  _ < 2 ^ k * (a / 2 ^ k) + 2 ^ k := by omega
  _ = (a / 2 ^ k + 1) * 2 ^ k := by ring
  _ ≤ M * 2 ^ k := Nat.mul_le_mul_right _ (by omega)

/-- For capacities below `2^32 - 3 * 262144` (every capacity the
constructor can produce for a realistic key count) no `uint32` wrap occurs
in the segment-count normalization: the final count is positive and
`(segment_count + 2) * segment_length` stays below `2^32`. -/
theorem scOf_pos_mul (sl c : Nat) (h1 : 0 < sl) (h2 : sl ≤ 262144)
    (hc : c ≤ 2 ^ 32 - 3 * 262144) :
    0 < scOf sl c ∧ (scOf sl c + 2) * sl < 2 ^ 32 := by
  rw [scOf]
  rw [show (c + sl - 1) % 2 ^ 32 = c + sl - 1 from Nat.mod_eq_of_lt (by omega)]
  have hq1 : (c + sl - 1) / sl * sl ≤ c + sl - 1 := Nat.div_mul_le_self _ _
  have hq2 : (c + sl - 1) / sl ≤ c + sl - 1 := Nat.div_le_self _ _
  generalize hqd : (c + sl - 1) / sl = q at hq1 hq2
  have hqsl32 : q * sl < 2 ^ 32 := by omega
  have hal0 : ((sub32 q 2 + 2) * sl) % 2 ^ 32 = q * sl := by
    rcases le_or_lt 2 q with h | h
    · rw [show sub32 q 2 = q - 2 from by unfold sub32 ; omega]
      rw [show q - 2 + 2 = q from by omega]
      exact Nat.mod_eq_of_lt hqsl32
    · rw [show sub32 q 2 = q + 2 ^ 32 - 2 from by unfold sub32 ; omega]
      rw [show q + 2 ^ 32 - 2 + 2 = q + 2 ^ 32 from by omega]
      rw [Nat.add_mul, Nat.add_mul_mod_self_left]
      exact Nat.mod_eq_of_lt hqsl32
  rw [hal0]
  rw [show q * sl + sl - 1 = sl - 1 + sl * q from by rw [Nat.mul_comm] ; omega]
  rw [Nat.add_mul_div_left _ _ h1, Nat.div_eq_of_lt (by omega), Nat.zero_add]
  rcases le_or_lt q 2 with h | h
  · rw [if_pos h]
    omega
  · rw [if_neg (by omega)]
    have he : (q - 2 + 2) * sl = q * sl := by
      rw [show q - 2 + 2 = q from by omega]
    constructor
    · omega
    · omega

/-- Well-formedness of every geometry the constructor produces (capacity
below the no-wrap bound): the segment length is `2^k` with `k ≤ 18`, the
mask is `2^k - 1`, the count is positive, `segment_count_length` and
`array_length` are exact (unwrapped) products, and `array_length <
2^32`. -/
theorem geometryFrom_wf (n c : Nat) (hn : n < 2 ^ 32) (hc : c ≤ 2 ^ 32 - 3 * 262144) :
    ∃ k, k ≤ 18 ∧ (geometryFrom n c).segment_length = 2 ^ k ∧
      (geometryFrom n c).segment_length_mask = 2 ^ k - 1 ∧
      0 < (geometryFrom n c).segment_count ∧
      (geometryFrom n c).segment_count_length = (geometryFrom n c).segment_count * 2 ^ k ∧
      (geometryFrom n c).array_length = ((geometryFrom n c).segment_count + 2) * 2 ^ k ∧
      (geometryFrom n c).array_length < 2 ^ 32 := by
  obtain ⟨k, hk, hsl⟩ := segLenOf_pow n hn
  have hslpos : 0 < segLenOf n := by rw [hsl] ; positivity
  have hsl262 : segLenOf n ≤ 262144 := by
    rw [hsl]
    calc (2 : Nat) ^ k ≤ 2 ^ 18 := Nat.pow_le_pow_right (by norm_num) hk
    _ = 262144 := by norm_num
  obtain ⟨hscpos, hsc32⟩ := scOf_pos_mul (segLenOf n) c hslpos hsl262 hc
  have hscsl : scOf (segLenOf n) c * segLenOf n < 2 ^ 32 := by
    have hmono := Nat.mul_le_mul_right (segLenOf n)
      (Nat.le_add_right (scOf (segLenOf n) c) 2)
    omega
  refine ⟨k, hk, hsl, ?_, hscpos, ?_, ?_, ?_⟩
  · show sub32 (segLenOf n) 1 = 2 ^ k - 1
    rw [hsl]
    have hlt : (2 : Nat) ^ k < 2 ^ 32 := by omega
    unfold sub32
    omega
  · show (scOf (segLenOf n) c * segLenOf n) % 2 ^ 32 = scOf (segLenOf n) c * 2 ^ k
    rw [Nat.mod_eq_of_lt hscsl, hsl]
  · show ((scOf (segLenOf n) c + 2) * segLenOf n) % 2 ^ 32 =
      (scOf (segLenOf n) c + 2) * 2 ^ k
    rw [Nat.mod_eq_of_lt hsc32, hsl]
  · show ((scOf (segLenOf n) c + 2) * segLenOf n) % 2 ^ 32 < 2 ^ 32
    exact Nat.mod_lt _ (by norm_num)

/-- The index bounds of `hash_batch` over an abstract well-formed
geometry: `h0 < scl`, `h1 < scl + 2^k`, `h2 < scl + 2*2^k =
array_length`. -/
theorem hash_batch_lt (g : Geometry) (hash k : Nat) (hh : hash < 2 ^ 64)
    (hsl : g.segment_length = 2 ^ k) (hmask : g.segment_length_mask = 2 ^ k - 1)
    (hscl : g.segment_count_length = g.segment_count * 2 ^ k)
    (harr : g.array_length = (g.segment_count + 2) * 2 ^ k)
    (hscpos : 0 < g.segment_count) (harr32 : g.array_length < 2 ^ 32) :
    (hash_batch g hash).1 < g.array_length ∧
    (hash_batch g hash).2.1 < g.array_length ∧
    (hash_batch g hash).2.2 < g.array_length := by
  obtain ⟨sl, mask, sc, scl, arr⟩ := g
  dsimp only at hsl hmask hscl harr hscpos harr32 ⊢
  subst hsl hmask hscl harr
  simp only [hash_batch]
  have hkpos : (0 : Nat) < 2 ^ k := by positivity
  have hsclpos : 0 < sc * 2 ^ k := by positivity
  have e1 : sc * 2 ^ k + 2 ^ k = (sc + 1) * 2 ^ k := by ring
  have e2 : (sc + 1) * 2 ^ k + 2 ^ k = (sc + 2) * 2 ^ k := by ring
  have le12 : (sc + 1) * 2 ^ k ≤ (sc + 2) * 2 ^ k := Nat.mul_le_mul_right _ (by omega)
  have hA : mulhi hash (sc * 2 ^ k) < sc * 2 ^ k := by
    rw [mulhi, Nat.shiftRight_eq_div_pow]
    rw [Nat.div_lt_iff_lt_mul (by norm_num : (0 : Nat) < 2 ^ 64)]
    calc hash * (sc * 2 ^ k) < 2 ^ 64 * (sc * 2 ^ k) :=
      (Nat.mul_lt_mul_right hsclpos).2 hh
    _ = sc * 2 ^ k * 2 ^ 64 := Nat.mul_comm _ _
  have hm0 : mulhi hash (sc * 2 ^ k) % 2 ^ 32 = mulhi hash (sc * 2 ^ k) :=
    Nat.mod_eq_of_lt (by omega)
  have hm1 : (mulhi hash (sc * 2 ^ k) + 2 ^ k) % 2 ^ 32 =
      mulhi hash (sc * 2 ^ k) + 2 ^ k := Nat.mod_eq_of_lt (by omega)
  have hm2 : (mulhi hash (sc * 2 ^ k) + 2 ^ k + 2 ^ k) % 2 ^ 32 =
      mulhi hash (sc * 2 ^ k) + 2 ^ k + 2 ^ k := Nat.mod_eq_of_lt (by omega)
  have hy1 : ((hash >>> 18) % 2 ^ 32) &&& (2 ^ k - 1) < 2 ^ k := by
    rw [Nat.and_pow_two_sub_one_eq_mod]
    exact Nat.mod_lt _ hkpos
  have hy2 : (hash % 2 ^ 32) &&& (2 ^ k - 1) < 2 ^ k := by
    rw [Nat.and_pow_two_sub_one_eq_mod]
    exact Nat.mod_lt _ hkpos
  refine ⟨?_, ?_, ?_⟩
  · rw [hm0]
    omega
  · rw [hm0, hm1]
    have hx := xor_lt_of_low (mulhi hash (sc * 2 ^ k) + 2 ^ k)
      (((hash >>> 18) % 2 ^ 32) &&& (2 ^ k - 1)) (sc + 1) k hy1 (by omega)
    omega
  · rw [hm0, hm1, hm2]
    exact xor_lt_of_low _ _ (sc + 2) k hy2 (by omega)

/-- **C8**: for every 64-bit hash and every geometry the constructor
produces (key count a `uint32`; capacity below the `uint32` no-wrap bound,
which covers every capacity the double-precision rounding can produce for
realistic key counts), all three indices of `hash_batch` lie in
`[0, array_length)`: `h0` in the first band, `h1` in the second, `h2` in
the third — so every fingerprint access during construction and recovery
is in bounds. -/
theorem hash_batch_in_bounds (n c hash : Nat) (hn : n < 2 ^ 32)
    (hc : c ≤ 2 ^ 32 - 3 * 262144) (hh : hash < 2 ^ 64) :
    (hash_batch (geometryFrom n c) hash).1 < (geometryFrom n c).array_length ∧
    (hash_batch (geometryFrom n c) hash).2.1 < (geometryFrom n c).array_length ∧
    (hash_batch (geometryFrom n c) hash).2.2 < (geometryFrom n c).array_length := by
  obtain ⟨k, hk, hsl, hmask, hscpos, hscl, harr, harr32⟩ := geometryFrom_wf n c hn hc
  exact hash_batch_lt (geometryFrom n c) hash k hh hsl hmask hscl harr hscpos harr32

/-- Witness for C8 at `n = 1`, `c = 0`, `hash = 6958928095123392589`. -/
theorem hash_batch_in_bounds_witness :
    (hash_batch (geometryFrom 1 0) 6958928095123392589).1 <
      (geometryFrom 1 0).array_length ∧
    (hash_batch (geometryFrom 1 0) 6958928095123392589).2.1 <
      (geometryFrom 1 0).array_length ∧
    (hash_batch (geometryFrom 1 0) 6958928095123392589).2.2 <
      (geometryFrom 1 0).array_length :=
  hash_batch_in_bounds 1 0 6958928095123392589 (by norm_num) (by norm_num) (by norm_num)

/-! ## Serialization lemmas -/

/-- `toLEBytes` produces exactly `m` bytes. -/
theorem toLEBytes_length (m x : Nat) : (toLEBytes m x).length = m := by
  induction m generalizing x with
  | zero => rfl
  | succ m ih => simp [toLEBytes, ih]

/-- Reading back `m` little-endian bytes recovers the value modulo
`256^m`. -/
theorem fromLEBytes_toLEBytes (m x : Nat) : fromLEBytes (toLEBytes m x) = x % 256 ^ m := by
  induction m generalizing x with
  | zero => simp [toLEBytes, fromLEBytes, Nat.mod_one]
  | succ m ih =>
    simp only [toLEBytes, fromLEBytes, List.foldr_cons] at ih ⊢
    rw [ih]
    rw [show (256 : Nat) ^ (m + 1) = 256 * 256 ^ m from by ring, Nat.mod_mul]
    omega

/-- Shift a `readLE` past a prefix of known length. -/
theorem readLE_append_off (l1 l2 : List Nat) (off off' m : Nat)
    (h : off = l1.length + off') : readLE (l1 ++ l2) off m = readLE l2 off' m := by
  subst h
  rw [readLE, readLE, List.drop_append]

/-- `readLE` at offset 0 of a buffer starting with an `m`-byte field. -/
theorem readLE_exact (l1 l2 : List Nat) (m : Nat) (h : l1.length = m) :
    readLE (l1 ++ l2) 0 m = fromLEBytes l1 := by
  rw [readLE, List.drop_zero, ← h, List.take_left]

/-- Reading 4 bytes at offset `4*i` of a flattened list of 4-byte chunks
returns chunk `i`. -/
theorem readLE_flatten_chunks (L : List (List Nat)) (i : Nat)
    (hL : ∀ l ∈ L, l.length = 4) (hi : i < L.length) :
    readLE L.flatten (4 * i) 4 = fromLEBytes (L.getD i []) := by
  induction L generalizing i with
  | nil => simp at hi
  | cons l L ih =>
    rcases Nat.eq_zero_or_pos i with rfl | hpos
    · rw [List.flatten_cons, Nat.mul_zero, List.getD_cons_zero]
      exact readLE_exact l L.flatten 4 (hL l (by simp))
    · obtain ⟨j, rfl⟩ : ∃ j, i = j + 1 := ⟨i - 1, by omega⟩
      rw [List.flatten_cons]
      rw [readLE_append_off l L.flatten (4 * (j + 1)) (4 * j) 4
        (by rw [hL l (by simp)] ; ring)]
      rw [List.getD_cons_succ]
      exact ih j (fun x hx => hL x (List.mem_cons_of_mem _ hx)) (by simpa using hi)

/-- Reading the first `n` bytes of a buffer with an `n`-byte prefix
recovers the prefix. -/
theorem map_getD_append (l rest : List Nat) (n : Nat) (h : l.length = n) :
    (List.range n).map (fun i => (l ++ rest).getD i 0) = l := by
  apply List.ext_getElem
  · simp [h]
  · intro i h1 h2
    simp only [List.getElem_map, List.getElem_range]
    rw [List.getD_append _ _ _ _ (by omega)]
    exact List.getD_eq_getElem _ _ (by omega)

/-- The back-fill table has exactly `array_length` cells. -/
theorem backfill_length (g : Geometry) (p lab : Nat) (hm sh sH : Nat → Nat) (n : Nat) :
    (backfill g p lab hm sh sH n).length = g.array_length := by
  rw [backfill]
  generalize (List.range n).reverse = l
  have key : ∀ (l : List Nat) (F : List Nat),
      (l.foldl (fun F i => backfillStep g p lab hm F (sh i) (sH i)) F).length = F.length := by
    intro l
    induction l with
    | nil => intro F ; rfl
    | cons a l ih =>
      intro F
      rw [List.foldl_cons, ih]
      simp [backfillStep, List.length_set]
  rw [key, List.length_replicate]

/-- Every cell of the back-fill table is a `uint32` value. -/
theorem backfill_entries (g : Geometry) (p lab : Nat) (hm sh sH : Nat → Nat) (n : Nat) :
    ∀ x ∈ backfill g p lab hm sh sH n, x < 2 ^ 32 := by
  rw [backfill]
  generalize (List.range n).reverse = l
  have key : ∀ (l : List Nat) (F : List Nat), (∀ x ∈ F, x < 2 ^ 32) →
      ∀ x ∈ l.foldl (fun F i => backfillStep g p lab hm F (sh i) (sH i)) F, x < 2 ^ 32 := by
    intro l
    induction l with
    | nil => intro F hF ; exact hF
    | cons a l ih =>
      intro F hF
      apply ih
      intro x hx
      simp only [backfillStep] at hx
      rcases List.mem_or_eq_of_mem_set hx with h | h
      · exact hF x h
      · subst h
        calc sub32 _ _ % p ≤ sub32 _ _ := Nat.mod_le _ _
        _ < 2 ^ 32 := Nat.mod_lt _ (by norm_num)
  apply key
  intro x hx
  rw [List.eq_of_mem_replicate hx]
  norm_num

/-- `segLenOf` is at least 4 for any `uint32` key count. -/
theorem segLenOf_ge4 (n : Nat) (hn : n < 2 ^ 32) : 4 ≤ segLenOf n := by
  rcases Nat.eq_zero_or_pos n with rfl | h0
  · norm_num [segLenOf]
  · rw [segLenOf_eq n h0 hn]
    have h2 := (segLenShift_eq_floor n h0 hn).2
    calc (4 : Nat) = 2 ^ 2 := by norm_num
    _ ≤ 2 ^ min (segLenShift n) 18 := Nat.pow_le_pow_right (by norm_num) (by omega)

/-- The normalized segment count is `uint32`-bounded whenever the segment
length is in its clamped range. -/
theorem scOf_lt (sl c : Nat) (h4 : 4 ≤ sl) (h2 : sl ≤ 262144) : scOf sl c < 2 ^ 32 := by
  rw [scOf]
  set al0 := ((sub32 (((c + sl - 1) % 2 ^ 32) / sl) 2 + 2) * sl) % 2 ^ 32 with hal0
  have h1 : al0 < 2 ^ 32 := Nat.mod_lt _ (by norm_num)
  have h3 : (al0 + sl - 1) / sl * sl ≤ al0 + sl - 1 := Nat.div_mul_le_self _ _
  have h5 : 4 * ((al0 + sl - 1) / sl) ≤ (al0 + sl - 1) / sl * sl := by
    rw [Nat.mul_comm]
    exact Nat.mul_le_mul_left _ h4
  rcases le_or_lt ((al0 + sl - 1) / sl) 2 with h | h
  · rw [if_pos h]
    norm_num
  · rw [if_neg (by omega)]
    omega

/-- Bounds of the geometry fields (all `uint32`). -/
theorem geometryFrom_fields_lt (n c : Nat) (hn : n < 2 ^ 32) :
    (geometryFrom n c).segment_length < 2 ^ 32 ∧
    (geometryFrom n c).segment_count < 2 ^ 32 ∧
    (geometryFrom n c).segment_count_length < 2 ^ 32 ∧
    (geometryFrom n c).array_length < 2 ^ 32 := by
  obtain ⟨k, hk, hsl⟩ := segLenOf_pow n hn
  have hb : segLenOf n ≤ 262144 := by
    show segLenOf n ≤ 262144
    calc segLenOf n = 2 ^ k := hsl
    _ ≤ 2 ^ 18 := Nat.pow_le_pow_right (by norm_num) hk
    _ = 262144 := by norm_num
  refine ⟨?_, ?_, ?_, ?_⟩
  · show segLenOf n < 2 ^ 32
    omega
  · exact scOf_lt (segLenOf n) c (segLenOf_ge4 n hn) hb
  · exact Nat.mod_lt _ (by norm_num)
  · exact Nat.mod_lt _ (by norm_num)

/-- Shape of a successfully constructed filter: the stored fields are the
inputs and the geometry, all within their machine widths, the mask is
`segment_length - 1`, and the fingerprint table has `array_length`
`uint32` cells. -/
theorem construct_ok_props (seed : List Nat) (keys : List bff_key_t)
    (values : List Nat) (p lab : Nat) (f : bff_for_kv_map_t)
    (h : construct seed keys values p lab = .ok f) :
    f.seed = seed ∧ f.plaintext_modulo = p ∧ f.label = lab ∧ 256 ≤ p ∧
    f.num_keys_in_kv_map < 2 ^ 32 ∧
    f.segment_length < 2 ^ 32 ∧ f.segment_count < 2 ^ 32 ∧
    f.segment_count_length < 2 ^ 32 ∧ f.array_length < 2 ^ 32 ∧
    f.segment_length_mask = sub32 f.segment_length 1 ∧
    f.fingerprints.length = f.array_length ∧
    (∀ x ∈ f.fingerprints, x < 2 ^ 32) := by
  unfold construct at h
  split at h
  · exact Except.noConfusion h
  · split at h
    · exact Except.noConfusion h
    · split at h
      · exact Except.noConfusion h
      · dsimp only at h
        split at h
        · exact Except.noConfusion h
        · rename_i hlen hdup hp _ _ _
          injection h with h
          subst h
          obtain ⟨g1, g2, g3, g4⟩ :=
            geometryFrom_fields_lt (keys.length % 2 ^ 32)
              (if keys.length % 2 ^ 32 ≤ 1 then 0 else capacityOf (keys.length % 2 ^ 32))
              (Nat.mod_lt _ (by norm_num))
          exact ⟨rfl, rfl, rfl, by omega, Nat.mod_lt _ (by norm_num), g1, g2, g3, g4, rfl,
            backfill_length _ _ _ _ _ _ _, backfill_entries _ _ _ _ _ _ _⟩

/-- `deserialize` inverts `serializeBytes` on any filter whose fields are
within their machine widths. -/
theorem deserialize_serializeBytes (f : bff_for_kv_map_t)
    (hseed : f.seed.length = 32)
    (hn : f.num_keys_in_kv_map < 2 ^ 32) (hp : f.plaintext_modulo < 2 ^ 64)
    (hlab : f.label < 2 ^ 64) (hsl : f.segment_length < 2 ^ 32)
    (hmask : f.segment_length_mask = sub32 f.segment_length 1)
    (hsc : f.segment_count < 2 ^ 32) (hscl : f.segment_count_length < 2 ^ 32)
    (harr : f.array_length < 2 ^ 32) (hfp : f.fingerprints.length = f.array_length)
    (hfpe : ∀ x ∈ f.fingerprints, x < 2 ^ 32) :
    deserialize (serializeBytes f) = f := by
  have e32 : readLE (serializeBytes f) 32 4 = f.num_keys_in_kv_map := by
    rw [serializeBytes]
    simp only [List.append_assoc]
    rw [readLE_append_off f.seed _ 32 0 4 (by omega)]
    rw [readLE_exact _ _ 4 (toLEBytes_length 4 _), fromLEBytes_toLEBytes]
    exact Nat.mod_eq_of_lt (by norm_num ; omega)
  have e36 : readLE (serializeBytes f) 36 8 = f.plaintext_modulo := by
    rw [serializeBytes]
    simp only [List.append_assoc]
    rw [readLE_append_off f.seed _ 36 4 8 (by omega)]
    rw [readLE_append_off _ _ 4 0 8 (by simp [toLEBytes_length])]
    rw [readLE_exact _ _ 8 (toLEBytes_length 8 _), fromLEBytes_toLEBytes]
    exact Nat.mod_eq_of_lt (by norm_num ; omega)
  have e44 : readLE (serializeBytes f) 44 8 = f.label := by
    rw [serializeBytes]
    simp only [List.append_assoc]
    rw [readLE_append_off f.seed _ 44 12 8 (by omega)]
    rw [readLE_append_off _ _ 12 8 8 (by simp [toLEBytes_length])]
    rw [readLE_append_off _ _ 8 0 8 (by simp [toLEBytes_length])]
    rw [readLE_exact _ _ 8 (toLEBytes_length 8 _), fromLEBytes_toLEBytes]
    exact Nat.mod_eq_of_lt (by norm_num ; omega)
  have e52 : readLE (serializeBytes f) 52 4 = f.segment_length := by
    rw [serializeBytes]
    simp only [List.append_assoc]
    rw [readLE_append_off f.seed _ 52 20 4 (by omega)]
    rw [readLE_append_off _ _ 20 16 4 (by simp [toLEBytes_length])]
    rw [readLE_append_off _ _ 16 8 4 (by simp [toLEBytes_length])]
    rw [readLE_append_off _ _ 8 0 4 (by simp [toLEBytes_length])]
    rw [readLE_exact _ _ 4 (toLEBytes_length 4 _), fromLEBytes_toLEBytes]
    exact Nat.mod_eq_of_lt (by norm_num ; omega)
  have e56 : readLE (serializeBytes f) 56 4 = f.segment_count := by
    rw [serializeBytes]
    simp only [List.append_assoc]
    rw [readLE_append_off f.seed _ 56 24 4 (by omega)]
    rw [readLE_append_off _ _ 24 20 4 (by simp [toLEBytes_length])]
    rw [readLE_append_off _ _ 20 12 4 (by simp [toLEBytes_length])]
    rw [readLE_append_off _ _ 12 4 4 (by simp [toLEBytes_length])]
    rw [readLE_append_off _ _ 4 0 4 (by simp [toLEBytes_length])]
    rw [readLE_exact _ _ 4 (toLEBytes_length 4 _), fromLEBytes_toLEBytes]
    exact Nat.mod_eq_of_lt (by norm_num ; omega)
  have e60 : readLE (serializeBytes f) 60 4 = f.segment_count_length := by
    rw [serializeBytes]
    simp only [List.append_assoc]
    rw [readLE_append_off f.seed _ 60 28 4 (by omega)]
    rw [readLE_append_off _ _ 28 24 4 (by simp [toLEBytes_length])]
    rw [readLE_append_off _ _ 24 16 4 (by simp [toLEBytes_length])]
    rw [readLE_append_off _ _ 16 8 4 (by simp [toLEBytes_length])]
    rw [readLE_append_off _ _ 8 4 4 (by simp [toLEBytes_length])]
    rw [readLE_append_off _ _ 4 0 4 (by simp [toLEBytes_length])]
    rw [readLE_exact _ _ 4 (toLEBytes_length 4 _), fromLEBytes_toLEBytes]
    exact Nat.mod_eq_of_lt (by norm_num ; omega)
  have e64 : readLE (serializeBytes f) 64 4 = f.array_length := by
    rw [serializeBytes]
    simp only [List.append_assoc]
    rw [readLE_append_off f.seed _ 64 32 4 (by omega)]
    rw [readLE_append_off _ _ 32 28 4 (by simp [toLEBytes_length])]
    rw [readLE_append_off _ _ 28 20 4 (by simp [toLEBytes_length])]
    rw [readLE_append_off _ _ 20 12 4 (by simp [toLEBytes_length])]
    rw [readLE_append_off _ _ 12 8 4 (by simp [toLEBytes_length])]
    rw [readLE_append_off _ _ 8 4 4 (by simp [toLEBytes_length])]
    rw [readLE_append_off _ _ 4 0 4 (by simp [toLEBytes_length])]
    rw [readLE_exact _ _ 4 (toLEBytes_length 4 _), fromLEBytes_toLEBytes]
    exact Nat.mod_eq_of_lt (by norm_num ; omega)
  have efp : ∀ i, i < f.array_length →
      readLE (serializeBytes f) (68 + 4 * i) 4 = f.fingerprints.getD i 0 := by
    intro i hi
    rw [serializeBytes]
    simp only [List.append_assoc]
    rw [readLE_append_off f.seed _ (68 + 4 * i) (36 + 4 * i) 4 (by omega)]
    rw [readLE_append_off _ _ (36 + 4 * i) (32 + 4 * i) 4 (by simp [toLEBytes_length] ; try omega)]
    rw [readLE_append_off _ _ (32 + 4 * i) (24 + 4 * i) 4 (by simp [toLEBytes_length] ; try omega)]
    rw [readLE_append_off _ _ (24 + 4 * i) (16 + 4 * i) 4 (by simp [toLEBytes_length] ; try omega)]
    rw [readLE_append_off _ _ (16 + 4 * i) (12 + 4 * i) 4 (by simp [toLEBytes_length] ; try omega)]
    rw [readLE_append_off _ _ (12 + 4 * i) (8 + 4 * i) 4 (by simp [toLEBytes_length] ; try omega)]
    rw [readLE_append_off _ _ (8 + 4 * i) (4 + 4 * i) 4 (by simp [toLEBytes_length] ; try omega)]
    rw [readLE_append_off _ _ (4 + 4 * i) (4 * i) 4 (by simp [toLEBytes_length] ; try omega)]
    rw [readLE_flatten_chunks _ i (by
      intro l hl
      obtain ⟨j, hj, rfl⟩ := List.mem_map.1 hl
      exact toLEBytes_length 4 _) (by simpa using hi)]
    have hchunk : ((List.range f.array_length).map
        fun j => toLEBytes 4 (f.fingerprints.getD j 0)).getD i [] =
        toLEBytes 4 (f.fingerprints.getD i 0) := by
      rw [List.getD_eq_getElem _ _ (by simpa using hi)]
      simp only [List.getElem_map, List.getElem_range]
    rw [hchunk, fromLEBytes_toLEBytes]
    apply Nat.mod_eq_of_lt
    rcases lt_or_le i f.fingerprints.length with h | h
    · have hmem := hfpe (f.fingerprints.getD i 0)
        (by rw [List.getD_eq_getElem _ _ h] ; exact List.getElem_mem h)
      calc f.fingerprints.getD i 0 < 2 ^ 32 := hmem
      _ ≤ 256 ^ 4 := le_of_eq (by norm_num)
    · rw [List.getD_eq_default _ _ h]
      norm_num
  have eseed : (List.range 32).map (fun i => (serializeBytes f).getD i 0) = f.seed := by
    rw [serializeBytes]
    simp only [List.append_assoc]
    exact map_getD_append f.seed _ 32 hseed
  rcases f with ⟨fseed, fn, fp, flab, fsl, fmask, fsc, fscl, farr, ffp⟩
  simp only at e32 e36 e44 e52 e56 e60 e64 efp eseed hmask hfp hfpe hseed
  rw [deserialize]
  rw [e32, e36, e44, e52, e56, e60, e64, eseed]
  rw [bff_for_kv_map_t.mk.injEq]
  refine ⟨rfl, rfl, rfl, rfl, rfl, hmask.symm, rfl, rfl, rfl, ?_⟩
  apply List.ext_getElem
  · simp [hfp]
  · intro i h1 h2
    simp only [List.getElem_map, List.getElem_range]
    rw [efp i (by simpa using h1)]
    exact List.getD_eq_getElem _ _ h2

/-! ## Claims -/

set_option maxRecDepth 100000 in
/-- **C1** (the claim fails on the code; the spec is the intent and the code
has a fixed-width slip).  At the valid input: zero seed, single key
`(1,0,0,0)`, value 0, `p = 257`, `label = 0`, the constructor succeeds but
`recover` returns 1, not `0 mod 257 = 0`: the back-fill computes the
fingerprint as `(entry - mask) mod 2^32 mod p`, and the multiple of `2^32`
introduced by the 32-bit wrap is not a multiple of 257
(`2^32 ≡ 1 (mod 257)`), which shifts the recovered value by 1. -/
theorem roundtrip_fails_at_p257 :
    (construct exSeed [exKey] [0] 257 0).map (fun f => recover f exKey) = .ok 1 ∧
      (0 : Nat) % 257 = 0 ∧ (1 : Nat) ≠ 0 :=
  ⟨rfl, rfl, by decide⟩

/-- **C2**: a successfully constructed filter stores the construction
modulus, and `recover` is total, returning a value in `[0, p)` for every
256-bit key (the final operation of `recover` is `% p` with `p ≥ 256`). -/
theorem recover_in_range_of_constructed (seed : List Nat) (keys : List bff_key_t)
    (values : List Nat) (p lab : Nat) (f : bff_for_kv_map_t) (key : bff_key_t)
    (h : construct seed keys values p lab = .ok f) :
    f.plaintext_modulo = p ∧ 256 ≤ p ∧ recover f key < f.plaintext_modulo := by
  unfold construct at h
  split at h
  · exact Except.noConfusion h
  · split at h
    · exact Except.noConfusion h
    · split at h
      · exact Except.noConfusion h
      · dsimp only at h
        split at h
        · exact Except.noConfusion h
        · rename_i hlen hdup hp _ _ _
          injection h with h
          subst h
          refine ⟨rfl, by omega, recover_lt_modulo _ key ?_⟩
          show 0 < p
          omega

set_option maxRecDepth 100000 in
/-- Witness for C2 at the concrete instance. -/
theorem recover_in_range_of_constructed_witness :
    exFilter.plaintext_modulo = 257 ∧ 256 ≤ 257 ∧
      recover exFilter exKey < exFilter.plaintext_modulo :=
  recover_in_range_of_constructed exSeed [exKey] [0] 257 0 exFilter exKey rfl

/-- **C3**: the constructor reports a permanent (argument) error exactly
when the key and value counts differ, or two keys are word-wise equal, or
`p < 256`.  The three checks run before any table is built, and in the
`Except` model an error excludes any constructed filter; the only other
possible error is the non-argument `constructionFailed`. -/
theorem construct_argument_error_iff (seed : List Nat) (keys : List bff_key_t)
    (values : List Nat) (p lab : Nat) :
    (∃ e, construct seed keys values p lab = .error e ∧ e.isArgumentError = true) ↔
      (keys.length ≠ values.length ∨ are_all_keys_distinct keys = false ∨ p < 256) := by
  constructor
  · rintro ⟨e, he, harg⟩
    unfold construct at he
    split at he
    · rename_i hc
      exact Or.inl hc
    · split at he
      · rename_i hc
        exact Or.inr (Or.inl hc)
      · split at he
        · rename_i hc
          exact Or.inr (Or.inr hc)
        · dsimp only at he
          split at he
          · injection he with he
            subst he
            exact absurd harg (by decide)
          · exact Except.noConfusion he
  · intro h
    unfold construct
    split
    · exact ⟨.lengthMismatch, rfl, rfl⟩
    · split
      · exact ⟨.duplicateKeys, rfl, rfl⟩
      · split
        · exact ⟨.modulusTooSmall, rfl, rfl⟩
        · rename_i h1 h2 h3
          rcases h with h | h | h
          · exact absurd h h1
          · exact absurd h h2
          · exact absurd h h3

set_option maxRecDepth 100000 in
/-- **C4 counterexample**: the claim "if any processed key's own-write
check sees `t2count < 4`, the iteration is declared failed" is false on the
code: `error` is a plain per-key assignment, not a latch.  At the
constructor geometry for 65 keys and the hash list `c4Hashes`, key 63's
own-write check is true (its `t2count` wrapped to 0), yet after the last
key the flag ends false, so the iteration proceeds to peeling. -/
theorem phaseB_overflow_flag_lost :
    phaseBCheckAt c4Geom c4Hashes 63 = true ∧
      (phaseB c4Geom c4Hashes).error = false ∧
      63 < c4Hashes.length ∧
      geometryFrom 65 (capacityOf 65) = c4Geom :=
  ⟨rfl, rfl, by decide, rfl⟩

/-- **C4 (amended)**: the `error` flag of Phase B equals the own-write
check of the last processed key alone (the per-key assignment overwrites
earlier checks); whenever that flag is set, the iteration is declared
failed — `runAttemptCore` returns `none` without peeling, and the retry
loop continues with freshly cleared working buffers. -/
theorem phaseB_error_is_last_check (g : Geometry) (hashes : List Nat)
    (hne : hashes ≠ []) :
    (phaseB g hashes).error =
      (phaseBStep g (phaseB g hashes.dropLast) (hashes.getLastD 0)).error ∧
    ((phaseB g hashes).error = true → ∀ n, runAttemptCore g n hashes = none) := by
  constructor
  · rcases List.eq_nil_or_concat hashes with h | ⟨l, a, h⟩
    · exact absurd h hne
    · subst h
      simp only [phaseB, List.dropLast_concat, List.getLastD_concat, List.concat_eq_append,
        List.foldl_append, List.foldl_cons, List.foldl_nil]
  · intro herr n
    rw [runAttemptCore]
    simp only [herr]
    rfl

/-- Witness for the amended C4 at the 64-hash instance whose last key
does see the overflow. -/
theorem phaseB_error_is_last_check_witness :
    ((phaseB c4Geom c4ErrHashes).error =
      (phaseBStep c4Geom (phaseB c4Geom c4ErrHashes.dropLast)
        (c4ErrHashes.getLastD 0)).error) ∧
    ((phaseB c4Geom c4ErrHashes).error = true →
      ∀ n, runAttemptCore c4Geom n c4ErrHashes = none) :=
  phaseB_error_is_last_check c4Geom c4ErrHashes (by decide)

/-- **C5** (code bug): the deserializing constructor performs no input
validation at all, contrary to the claim (and the spec's requirement that
the byte count be checked against the header-implied length).
Deserializing the empty buffer is accepted and yields a filter whose
fields are all read as zero (out-of-bounds reads, undefined behaviour in
C++, modelled as zero bytes) and whose recomputed mask wraps to
`2^32 - 1`; a 68-byte buffer whose header claims `array_length = 5` but
carries no fingerprint bytes is likewise accepted (20 bytes short of the
implied 88), with the missing cells read as zero. -/
theorem deserialize_accepts_any_size :
    deserialize [] =
      ⟨List.replicate 32 0, 0, 0, 0, 0, 2 ^ 32 - 1, 0, 0, 0, []⟩ ∧
    (deserialize (List.replicate 64 0 ++ [5, 0, 0, 0])).array_length = 5 ∧
    (deserialize (List.replicate 64 0 ++ [5, 0, 0, 0])).fingerprints = [0, 0, 0, 0, 0] ∧
    (List.replicate 64 0 ++ [5, 0, 0, 0]).length ≠
      serialized_num_bytes (deserialize (List.replicate 64 0 ++ [5, 0, 0, 0])) :=
  ⟨rfl, rfl, rfl, by decide⟩

/-- **C6**: serialization round-trips.  For every successfully constructed
filter, `serialized_num_bytes` is the fixed header plus
`array_length * 4`, serializing into a buffer of exactly that size
succeeds and fails for every other size, deserializing the produced bytes
restores every observable field, and hence recovery is identical for
every key. -/
theorem serialize_roundtrip (seed : List Nat) (keys : List bff_key_t)
    (values : List Nat) (p lab : Nat) (f : bff_for_kv_map_t)
    (hseed : seed.length = 32) (hp : p < 2 ^ 64) (hlab : lab < 2 ^ 64)
    (hok : construct seed keys values p lab = .ok f) :
    serialized_num_bytes f = 32 + 4 + 8 + 8 + 4 + 4 + 4 + 4 + f.array_length * 4 ∧
    serialize f (serialized_num_bytes f) = some (serializeBytes f) ∧
    (∀ m, m ≠ serialized_num_bytes f → serialize f m = none) ∧
    deserialize (serializeBytes f) = f ∧
    (∀ key, recover (deserialize (serializeBytes f)) key = recover f key) := by
  obtain ⟨hfseed, hfmod, hflab, hp256, hn, hsl, hsc, hscl, harr, hmask, hfplen, hfpe⟩ :=
    construct_ok_props seed keys values p lab f hok
  have hrt : deserialize (serializeBytes f) = f :=
    deserialize_serializeBytes f (by rw [hfseed] ; exact hseed) hn
      (by rw [hfmod] ; exact hp) (by rw [hflab] ; exact hlab)
      hsl hmask hsc hscl harr hfplen hfpe
  refine ⟨?_, ?_, ?_, hrt, fun key => by rw [hrt]⟩
  · rw [serialized_num_bytes, hfplen]
  · rw [serialize, if_neg (by omega)]
  · intro m hm
    rw [serialize, if_pos hm]

set_option maxRecDepth 100000 in
/-- Witness for C6 at the concrete instance. -/
theorem serialize_roundtrip_witness :
    serialized_num_bytes exFilter =
        32 + 4 + 8 + 8 + 4 + 4 + 4 + 4 + exFilter.array_length * 4 ∧
    serialize exFilter (serialized_num_bytes exFilter) = some (serializeBytes exFilter) ∧
    (∀ m, m ≠ serialized_num_bytes exFilter → serialize exFilter m = none) ∧
    deserialize (serializeBytes exFilter) = exFilter ∧
    (∀ key, recover (deserialize (serializeBytes exFilter)) key = recover exFilter key) :=
  serialize_roundtrip exSeed [exKey] [0] 257 0 exFilter rfl (by norm_num) (by norm_num) rfl

/-- **C9**: construction is a pure function of
`(seed, keys, values, p, label)` — the source's only associative container,
`hm_keys`, is read pointwise and its iteration order is never used — so two
successful builds from identical inputs yield equal filters and
byte-identical serializations. -/
theorem construct_deterministic (seed : List Nat) (keys : List bff_key_t)
    (values : List Nat) (p lab : Nat) (f1 f2 : bff_for_kv_map_t)
    (h1 : construct seed keys values p lab = .ok f1)
    (h2 : construct seed keys values p lab = .ok f2) :
    f1 = f2 ∧ serializeBytes f1 = serializeBytes f2 := by
  rw [h1] at h2
  injection h2 with h2
  exact ⟨h2, by rw [h2]⟩

set_option maxRecDepth 100000 in
/-- Witness for C9 at the concrete instance. -/
theorem construct_deterministic_witness :
    exFilter = exFilter ∧ serializeBytes exFilter = serializeBytes exFilter :=
  construct_deterministic exSeed [exKey] [0] 257 0 exFilter exFilter rfl rfl

/-! ## Small key counts (n = 0, 1) -/

theorem g12_zero : geometryFrom 0 0 = ⟨4, 3, 1, 4, 12⟩ := by rfl

set_option maxRecDepth 10000 in
theorem g12_one : geometryFrom 1 0 = ⟨4, 3, 1, 4, 12⟩ := by rfl

theorem bb_one : blockBitsOf 1 = 1 := by rfl

theorem mix256_lt (k : bff_key_t) (seed : List Nat) : mix256 k seed < 2 ^ 64 := by
  show _ % 2 ^ 64 < 2 ^ 64
  exact Nat.mod_lt _ (by norm_num)

theorem xor_div_low (x y k : Nat) (hy : y < 2 ^ k) : (x ^^^ y) / 2 ^ k = x / 2 ^ k := by
  rw [← Nat.shiftRight_eq_div_pow, ← Nat.shiftRight_eq_div_pow]
  apply Nat.eq_of_testBit_eq
  intro i
  rw [Nat.testBit_shiftRight, Nat.testBit_shiftRight, Nat.testBit_xor]
  rw [Nat.testBit_eq_false_of_lt (lt_of_lt_of_le hy (Nat.pow_le_pow_right (by norm_num) (by omega)))]
  simp

theorem upd_at (f : Nat → Nat) (i v : Nat) : upd f i v i = v := by simp [upd]

theorem upd_away (f : Nat → Nat) (i v j : Nat) (h : j ≠ i) : upd f i v j = f j := by
  simp [upd, h]

theorem hash_batch_g12 (h : Nat) (hlt : h < 2 ^ 64) :
    ∃ i0 i1 i2, hash_batch ⟨4, 3, 1, 4, 12⟩ h = (i0, i1, i2) ∧
      i0 < 4 ∧ 4 ≤ i1 ∧ i1 < 8 ∧ 8 ≤ i2 ∧ i2 < 12 := by
  have ha : mulhi h 4 < 4 := by
    rw [mulhi, Nat.shiftRight_eq_div_pow]
    rw [Nat.div_lt_iff_lt_mul (by norm_num : (0 : Nat) < 2 ^ 64)]
    omega
  have hb : (h >>> 18) % 2 ^ 32 &&& 3 < 4 := by
    rw [show (3 : Nat) = 2 ^ 2 - 1 from rfl, Nat.and_pow_two_sub_one_eq_mod]
    omega
  have hc : h % 2 ^ 32 &&& 3 < 4 := by
    rw [show (3 : Nat) = 2 ^ 2 - 1 from rfl, Nat.and_pow_two_sub_one_eq_mod]
    omega
  refine ⟨mulhi h 4, (mulhi h 4 + 4) ^^^ ((h >>> 18) % 2 ^ 32 &&& 3),
    (mulhi h 4 + 4 + 4) ^^^ (h % 2 ^ 32 &&& 3), ?_, ha, ?_, ?_, ?_, ?_⟩
  · show (mulhi h 4 % 2 ^ 32,
      (mulhi h 4 % 2 ^ 32 + 4) % 2 ^ 32 ^^^ ((h >>> 18) % 2 ^ 32 &&& 3),
      ((mulhi h 4 % 2 ^ 32 + 4) % 2 ^ 32 + 4) % 2 ^ 32 ^^^ (h % 2 ^ 32 &&& 3)) = _
    rw [Nat.mod_eq_of_lt (show mulhi h 4 < 2 ^ 32 by omega)]
    rw [Nat.mod_eq_of_lt (show mulhi h 4 + 4 < 2 ^ 32 by omega)]
    rw [Nat.mod_eq_of_lt (show mulhi h 4 + 4 + 4 < 2 ^ 32 by omega)]
  · have := xor_div_low (mulhi h 4 + 4) ((h >>> 18) % 2 ^ 32 &&& 3) 2 (by omega)
    have h4 : (mulhi h 4 + 4) / 2 ^ 2 = 1 := by omega
    omega
  · have := xor_div_low (mulhi h 4 + 4) ((h >>> 18) % 2 ^ 32 &&& 3) 2 (by omega)
    have h4 : (mulhi h 4 + 4) / 2 ^ 2 = 1 := by omega
    omega
  · have := xor_div_low (mulhi h 4 + 4 + 4) (h % 2 ^ 32 &&& 3) 2 (by omega)
    have h4 : (mulhi h 4 + 4 + 4) / 2 ^ 2 = 2 := by omega
    omega
  · have := xor_div_low (mulhi h 4 + 4 + 4) (h % 2 ^ 32 &&& 3) 2 (by omega)
    have h4 : (mulhi h 4 + 4 + 4) / 2 ^ 2 = 2 := by omega
    omega

theorem phaseB_single (g : Geometry) (h i0 i1 i2 : Nat)
    (hs : hash_batch g h = (i0, i1, i2))
    (n01 : i0 ≠ i1) (n02 : i0 ≠ i2) (n12 : i1 ≠ i2) :
    (phaseB g [h]).t2count i0 = 4 ∧ (phaseB g [h]).t2count i1 = 5 ∧
    (phaseB g [h]).t2count i2 = 6 ∧
    (∀ j, j ≠ i0 → j ≠ i1 → j ≠ i2 → (phaseB g [h]).t2count j = 0) ∧
    (phaseB g [h]).t2hash i0 = h ∧ (phaseB g [h]).t2hash i1 = h ∧
    (phaseB g [h]).t2hash i2 = h ∧ (phaseB g [h]).error = false := by
  simp only [phaseB, List.foldl_cons, List.foldl_nil, phaseBStep, phaseBInit, hs]
  refine ⟨?_, ?_, ?_, ?_, ?_, ?_, ?_, ?_⟩
  · simp [upd, n01, n02]
  · simp [upd, n12, Ne.symm n01]
  · simp [upd, Ne.symm n02, Ne.symm n12]
  · intro j hj0 hj1 hj2
    simp [upd, hj0, hj1, hj2]
  · simp [upd, n01, n02]
  · simp [upd, n12, Ne.symm n01]
  · simp [upd, Ne.symm n02, Ne.symm n12]
  · simp [upd, n01, n02, n12, Ne.symm n01, Ne.symm n02, Ne.symm n12]

theorem aloneFold_spec (cnt : Nat → Nat) :
    ∀ (l : List Nat) (a : Nat → Nat) (q : Nat),
      (l.foldl (fun acc i => (upd acc.1 acc.2 i, acc.2 + if cnt i >>> 2 = 1 then 1 else 0))
          (a, q)).2 = q + (l.filter fun i => decide (cnt i >>> 2 = 1)).length ∧
      (∀ j, j < q →
        (l.foldl (fun acc i => (upd acc.1 acc.2 i, acc.2 + if cnt i >>> 2 = 1 then 1 else 0))
            (a, q)).1 j = a j) ∧
      (∀ m, m < (l.filter fun i => decide (cnt i >>> 2 = 1)).length →
        (l.foldl (fun acc i => (upd acc.1 acc.2 i, acc.2 + if cnt i >>> 2 = 1 then 1 else 0))
            (a, q)).1 (q + m) = (l.filter fun i => decide (cnt i >>> 2 = 1)).getD m 0) := by
  intro l
  induction l with
  | nil =>
    intro a q
    refine ⟨by simp, fun j _ => rfl, fun m hm => by simp at hm⟩
  | cons i t ih =>
    intro a q
    by_cases hi : cnt i >>> 2 = 1
    · have hf : (i :: t).filter (fun i => decide (cnt i >>> 2 = 1)) =
        i :: t.filter (fun i => decide (cnt i >>> 2 = 1)) := by
        simp [List.filter_cons, hi]
      rw [hf]
      rw [List.foldl_cons]
      simp only [if_pos hi]
      obtain ⟨ih1, ih2, ih3⟩ := ih (upd a q i) (q + 1)
      refine ⟨by rw [ih1] ; simp ; omega, ?_, ?_⟩
      · intro j hj
        rw [ih2 j (by omega), upd_away _ _ _ _ (by omega)]
      · intro m hm
        cases m with
        | zero =>
          rw [show q + 0 = q from rfl, ih2 q (by omega), upd_at]
          rfl
        | succ m' =>
          rw [show q + (m' + 1) = q + 1 + m' from by omega]
          rw [ih3 m' (by simpa using hm)]
          rfl
    · have hf : (i :: t).filter (fun i => decide (cnt i >>> 2 = 1)) =
        t.filter (fun i => decide (cnt i >>> 2 = 1)) := by
        simp [List.filter_cons, hi]
      rw [hf]
      rw [List.foldl_cons]
      simp only [if_neg hi, Nat.add_zero]
      obtain ⟨ih1, ih2, ih3⟩ := ih (upd a q i) q
      refine ⟨ih1, ?_, ih3⟩
      intro j hj
      rw [ih2 j hj, upd_away _ _ _ _ (by omega)]

theorem filter_range_sorted_mem : ∀ (n : Nat) (L : List Nat) (good : Nat → Bool),
    L.Pairwise (· < ·) → (∀ x ∈ L, x < n) →
    (∀ j, j < n → (good j = true ↔ j ∈ L)) →
    (List.range n).filter good = L := by
  intro n
  induction n with
  | zero =>
    intro L good _ hb _
    cases L with
    | nil => rfl
    | cons x t => exact absurd (hb x (List.mem_cons_self x t)) (by omega)
  | succ m ih =>
    intro L good hs hb hg
    rw [List.range_succ, List.filter_append]
    by_cases hm : good m = true
    · have hmem : m ∈ L := (hg m (by omega)).1 hm
      have hne : L ≠ [] := by intro hnil ; rw [hnil] at hmem ; simp at hmem
      obtain ⟨L', x, hLx⟩ := List.eq_nil_or_concat L |>.resolve_left hne
      rw [List.concat_eq_append] at hLx
      subst hLx
      have hpw := List.pairwise_append.mp hs
      have hxlt : ∀ a ∈ L', a < x := by
        intro a hA
        exact hpw.2.2 a hA x (List.mem_singleton_self x)
      have hxm : x = m := by
        rcases List.mem_append.mp hmem with hmL | hmx
        · have h1 := hxlt m hmL
          have h2 := hb x (List.mem_append_right _ (List.mem_singleton_self x))
          omega
        · exact (List.mem_singleton.mp hmx).symm
      subst hxm
      have hfin : List.filter good [x] = [x] := by simp [hm]
      rw [hfin]
      have hrec : (List.range x).filter good = L' := by
        apply ih L' good hpw.1
        · intro a hA
          exact hxlt a hA
        · intro j hj
          rw [hg j (by omega)]
          constructor
          · intro hjmem
            rcases List.mem_append.mp hjmem with h1 | h1
            · exact h1
            · exact absurd (List.mem_singleton.mp h1) (by omega)
          · intro h1
            exact List.mem_append_left _ h1
      rw [hrec]
    · have hmem : m ∉ L := fun hc => hm ((hg m (by omega)).2 hc)
      have hmf : good m = false := by revert hm ; cases good m <;> simp
      have hfin : List.filter good [m] = [] := by
        simp [List.filter_cons, hmf]
      rw [hfin, List.append_nil]
      apply ih L good hs
      · intro x hx
        have h1 := hb x hx
        have h2 : x ≠ m := fun hc => hmem (hc ▸ hx)
        omega
      · intro j hj
        exact hg j (by omega)

theorem peelInit_single (g : Geometry) (harr : g.array_length = 12) (B : PhaseBState)
    (i0 i1 i2 : Nat) (h01 : i0 < i1) (h12 : i1 < i2) (h2b : i2 < 12)
    (hC0 : B.t2count i0 = 4) (hC1 : B.t2count i1 = 5) (hC2 : B.t2count i2 = 6)
    (hCo : ∀ j, j ≠ i0 → j ≠ i1 → j ≠ i2 → B.t2count j = 0) :
    (peelInit g B).2 = 3 ∧ (peelInit g B).1 0 = i0 ∧ (peelInit g B).1 1 = i1 ∧
      (peelInit g B).1 2 = i2 := by
  have hfil : (List.range 12).filter (fun i => decide (B.t2count i >>> 2 = 1)) =
      [i0, i1, i2] := by
    apply filter_range_sorted_mem
    · simp [List.pairwise_cons]
      omega
    · intro x hx
      simp at hx
      rcases hx with rfl | rfl | rfl <;> omega
    · intro j hj
      constructor
      · intro hgt
        by_contra hc
        simp at hc
        obtain ⟨hc0, hc1, hc2⟩ := hc
        rw [hCo j hc0 hc1 hc2] at hgt
        simp at hgt
      · intro hmem
        simp at hmem
        rcases hmem with rfl | rfl | rfl
        · rw [hC0] ; rfl
        · rw [hC1] ; rfl
        · rw [hC2] ; rfl
  obtain ⟨s1, s2, s3⟩ := aloneFold_spec B.t2count (List.range 12) (fun _ => 0) 0
  rw [hfil] at s1 s3
  simp only [peelInit, harr]
  refine ⟨by rw [s1] ; rfl, ?_, ?_, ?_⟩
  · have := s3 0 (by norm_num)
    simpa using this
  · have := s3 1 (by norm_num)
    simpa using this
  · have := s3 2 (by norm_num)
    simpa using this

theorem peelLoop_succ (g : Geometry) (fuel : Nat) (st : PeelState) :
    peelLoop g (fuel + 1) st =
      (if st.qsize = 0 then st
      else
        let q := st.qsize - 1
        let index := st.alone q
        if st.t2count index >>> 2 = 1 then
          let hash := st.t2hash index
          let found := st.t2count index &&& 3
          let stackHash := upd st.stackHash st.stacksize hash
          let stackH := upd st.stackH st.stacksize found
          let hb := hash_batch g hash
          let h012 := h012peel hb.1 hb.2.1 hb.2.2
          let oi1 := h012 (found + 1)
          let alone1 := upd st.alone q oi1
          let q1 := q + if st.t2count oi1 >>> 2 = 2 then 1 else 0
          let c1 := upd st.t2count oi1 (sub8 (st.t2count oi1) 4 ^^^ mod3 (found + 1))
          let x1 := upd st.t2hash oi1 (st.t2hash oi1 ^^^ hash)
          let oi2 := h012 (found + 2)
          let alone2 := upd alone1 q1 oi2
          let q2 := q1 + if c1 oi2 >>> 2 = 2 then 1 else 0
          let c2 := upd c1 oi2 (sub8 (c1 oi2) 4 ^^^ mod3 (found + 2))
          let x2 := upd x1 oi2 (x1 oi2 ^^^ hash)
          peelLoop g fuel ⟨c2, x2, alone2, q2, stackHash, stackH, st.stacksize + 1⟩
        else
          peelLoop g fuel ⟨st.t2count, st.t2hash, st.alone, q, st.stackHash, st.stackH,
            st.stacksize⟩) := rfl

theorem peelLoop_single (g : Geometry) (h i0 i1 i2 fuel : Nat)
    (hs : hash_batch g h = (i0, i1, i2))
    (n01 : i0 ≠ i1) (n02 : i0 ≠ i2) (n12 : i1 ≠ i2)
    (C X A sh sH : Nat → Nat)
    (hC0 : C i0 = 4) (hC1 : C i1 = 5) (hC2 : C i2 = 6) (hX2 : X i2 = h)
    (hA0 : A 0 = i0) (hA1 : A 1 = i1) (hA2 : A 2 = i2) :
    (peelLoop g (fuel + 4) ⟨C, X, A, 3, sh, sH, 0⟩).stacksize = 1 := by
  have n10 : i1 ≠ i0 := Ne.symm n01
  have n20 : i2 ≠ i0 := Ne.symm n02
  have n21 : i2 ≠ i1 := Ne.symm n12
  rw [show fuel + 4 = (fuel + 3) + 1 from rfl]
  rw [peelLoop_succ]
  rw [if_neg (by norm_num : ¬((3 : Nat) = 0))]
  dsimp only
  rw [show (3 : Nat) - 1 = 2 from rfl, hA2, hC2, hX2, hs]
  rw [if_pos (show (6 : Nat) >>> 2 = 1 from rfl)]
  rw [show (6 : Nat) &&& 3 = 2 from rfl]
  rw [show (2 : Nat) + 1 = 3 from rfl, show (2 : Nat) + 2 = 4 from rfl]
  dsimp only
  rw [show h012peel i0 i1 i2 3 = i0 from by simp [h012peel],
      show h012peel i0 i1 i2 4 = i1 from by simp [h012peel]]
  rw [hC0]
  rw [if_neg (show ¬((4 : Nat) >>> 2 = 2) from by decide)]
  rw [show sub8 4 4 ^^^ mod3 3 = 0 from rfl]
  rw [upd_away C i0 0 i1 n10, hC1]
  rw [if_neg (show ¬((5 : Nat) >>> 2 = 2) from by decide)]
  rw [show sub8 5 4 ^^^ mod3 4 = 0 from rfl]
  simp only [Nat.add_zero, Nat.zero_add]
  rw [show fuel + 3 = (fuel + 2) + 1 from rfl]
  rw [peelLoop_succ]
  rw [if_neg (show ¬((2 : Nat) = 0) from by decide)]
  dsimp only
  rw [show (2 : Nat) - 1 = 1 from rfl]
  rw [upd_away (upd A 2 i0) 2 i1 1 (by decide)]
  rw [upd_away A 2 i0 1 (by decide), hA1]
  rw [upd_at (upd C i0 0) i1 0]
  rw [if_neg (show ¬((0 : Nat) >>> 2 = 1) from by decide)]
  rw [show fuel + 2 = (fuel + 1) + 1 from rfl]
  rw [peelLoop_succ]
  rw [if_neg (show ¬((1 : Nat) = 0) from by decide)]
  dsimp only
  rw [show (1 : Nat) - 1 = 0 from rfl]
  rw [upd_away (upd A 2 i0) 2 i1 0 (by decide)]
  rw [upd_away A 2 i0 0 (by decide), hA0]
  rw [upd_away (upd C i0 0) i1 0 i0 n01]
  rw [upd_at C i0 0]
  rw [if_neg (show ¬((0 : Nat) >>> 2 = 1) from by decide)]
  rw [peelLoop_succ]
  rw [if_pos (show (0 : Nat) = 0 from rfl)]

theorem runAttemptCore_single (h i0 i1 i2 : Nat)
    (hs : hash_batch ⟨4, 3, 1, 4, 12⟩ h = (i0, i1, i2))
    (hb0 : i0 < 4) (hb1 : 4 ≤ i1) (hb1' : i1 < 8) (hb2 : 8 ≤ i2) (hb2' : i2 < 12) :
    ∃ s, runAttemptCore ⟨4, 3, 1, 4, 12⟩ 1 [h] = some s := by
  obtain ⟨c0, c1, c2, co, x0, x1, x2, herr⟩ :=
    phaseB_single ⟨4, 3, 1, 4, 12⟩ h i0 i1 i2 hs (by omega) (by omega) (by omega)
  obtain ⟨q3, a0, a1, a2⟩ :=
    peelInit_single ⟨4, 3, 1, 4, 12⟩ rfl (phaseB ⟨4, 3, 1, 4, 12⟩ [h]) i0 i1 i2
      (by omega) (by omega) (by omega) c0 c1 c2 co
  rw [← Option.isSome_iff_exists]
  simp only [runAttemptCore]
  rw [herr]
  rw [if_neg (show ¬(false = true) from by simp)]
  rw [q3]
  rw [show (12 : Nat) + 2 * 1 + 1 = 11 + 4 from by norm_num]
  have hst := peelLoop_single ⟨4, 3, 1, 4, 12⟩ h i0 i1 i2 11 hs
    (by omega) (by omega) (by omega) _ _ _ (fun _ => 0) (fun _ => 0) c0 c1 c2 x2 a0 a1 a2
  rw [hst]
  rw [if_pos (show (1 : Nat) = 1 from rfl)]
  rfl

theorem probeSlot_succ (ro sp : Nat → Nat) (mb fuel segIdx : Nat) :
    probeSlot ro sp mb (fuel + 1) segIdx =
      if ro (sp segIdx) ≠ 0 then probeSlot ro sp mb fuel ((segIdx + 1) &&& mb)
      else some segIdx := rfl

theorem probe_single (ro sp : Nat → Nat) (s : Nat) (hfree : ro (sp s) = 0) :
    probeSlot ro sp 1 (1 + 2) s = some s := by
  rw [show (1 : Nat) + 2 = 2 + 1 from rfl, probeSlot_succ, hfree]
  rw [if_neg (show ¬((0 : Nat) ≠ 0) from by simp)]

theorem phaseA_single (seed : List Nat) (k : bff_key_t) (v : Nat) (hm0 ro sp : Nat → Nat)
    (hsp : sp (mix256 k seed >>> 63) = 0) (hro : ro 0 = 0) :
    phaseA seed 1 1 [(k, v)] ⟨ro, sp, hm0⟩ =
      some ⟨upd ro 0 (mix256 k seed), upd sp (mix256 k seed >>> 63) (0 + 1),
            upd hm0 (mix256 k seed) v⟩ := by
  simp only [phaseA, phaseAStep]
  rw [show (64 : Nat) - 1 = 63 from rfl]
  rw [probe_single ro sp _ (by rw [hsp, hro])]
  dsimp only
  rw [hsp]

theorem runAttempt_single (seed : List Nat) (k : bff_key_t) (v : Nat) (hm0 : Nat → Nat) :
    ∃ s, runAttempt seed [(k, v)] 1 ⟨4, 3, 1, 4, 12⟩ 1 hm0 =
      (upd hm0 (mix256 k seed) v, some s) := by
  have hlt := mix256_lt k seed
  obtain ⟨i0, i1, i2, hs, hb0, hb1, hb1', hb2, hb2'⟩ := hash_batch_g12 (mix256 k seed) hlt
  have hsp : startPosInit 1 1 (mix256 k seed >>> 63) = 0 := by
    simp only [startPosInit, mul_one]
    rw [← Nat.shiftRight_add]
    rw [show (63 : Nat) + 1 = 64 from rfl]
    rw [Nat.shiftRight_eq_div_pow]
    rw [Nat.div_eq_of_lt hlt]
    rfl
  have hro : (fun j => if j = 1 then (1 : Nat) else 0) 0 = 0 := by norm_num
  obtain ⟨s, hcore⟩ := runAttemptCore_single (mix256 k seed) i0 i1 i2 hs hb0 hb1 hb1' hb2 hb2'
  refine ⟨s, ?_⟩
  simp only [runAttempt]
  rw [show (2 : Nat) ^ 1 - 1 = 1 from rfl]
  rw [phaseA_single seed k v hm0 (fun j => if j = 1 then 1 else 0) (startPosInit 1 1) hsp hro]
  dsimp only
  rw [show List.range 1 = [0] from rfl]
  simp only [List.map_cons, List.map_nil]
  rw [upd_at _ 0 (mix256 k seed)]
  rw [hcore]

theorem constructLoop_succ (seed : List Nat) (kvs : List (bff_key_t × Nat)) (n : Nat)
    (g : Geometry) (bb fuel : Nat) (hm : Nat → Nat) :
    constructLoop seed kvs n g bb (fuel + 1) hm =
      match runAttempt seed kvs n g bb hm with
      | (hm', some s) => some (s.1, s.2, hm')
      | (hm', none) => constructLoop seed kvs n g bb fuel hm' := rfl

theorem construct_nil (seed : List Nat) (p lab : Nat) (hp : ¬ p < 256) :
    construct seed [] [] p lab =
      .ok ⟨seed, 0, p, lab, 4, 3, 1, 4, 12, List.replicate 12 0⟩ := by
  unfold construct
  rw [if_neg (by simp), if_neg (by simp [are_all_keys_distinct, allKeysDistinctGo]),
    if_neg hp]
  rfl

theorem construct_single (seed : List Nat) (k : bff_key_t) (v p lab : Nat)
    (hp : ¬ p < 256) :
    ∃ s, construct seed [k] [v] p lab =
      .ok ⟨seed, 1, p, lab, 4, 3, 1, 4, 12,
        backfill ⟨4, 3, 1, 4, 12⟩ p lab (upd (fun _ => 0) (mix256 k seed) v) s.1 s.2 1⟩ ∧
      (runAttempt seed [(k, v)] 1 ⟨4, 3, 1, 4, 12⟩ 1 fun _ => 0).2 = some s := by
  obtain ⟨s, hatt⟩ := runAttempt_single seed k v (fun _ => 0)
  refine ⟨s, ?_, by rw [hatt]⟩
  unfold construct
  rw [if_neg (by simp), if_neg (by simp [are_all_keys_distinct, allKeysDistinctGo]),
    if_neg hp]
  simp only [List.length_singleton]
  rw [show (1 : Nat) % 2 ^ 32 = 1 from rfl]
  rw [if_pos (le_refl 1)]
  rw [g12_one]
  dsimp only
  rw [bb_one]
  rw [show ([k].zip [v]).take 1 = [(k, v)] from rfl]
  rw [show BFF_FOR_KV_MAP_MAX_CREATE_ATTEMPT_COUNT = 99 + 1 from rfl]
  rw [constructLoop_succ, hatt]

set_option maxRecDepth 100000 in
set_option maxHeartbeats 1000000 in
/-- **C10**: construction with zero keys or one key never reports the
peeling-exhausted failure; the geometry normalizes to `segment_length = 4`,
`segment_count = 1`, `array_length = 12`; with valid arguments the retry
loop succeeds on its very first iteration (the peeling stack reaches size
`n`), and `recover` is total (in `[0, p)`) on the resulting filter. -/
theorem construct_small_keycount (seed : List Nat) (keys : List bff_key_t)
    (values : List Nat) (p lab : Nat) (hkeys : keys.length ≤ 1) :
    construct seed keys values p lab ≠ .error .constructionFailed ∧
    (geometryFrom (keys.length % 2 ^ 32) 0).segment_length = 4 ∧
    (geometryFrom (keys.length % 2 ^ 32) 0).segment_count = 1 ∧
    (geometryFrom (keys.length % 2 ^ 32) 0).array_length = 12 ∧
    (keys.length = values.length → 256 ≤ p →
      ∃ f, construct seed keys values p lab = .ok f ∧
        f.segment_length = 4 ∧ f.segment_count = 1 ∧ f.array_length = 12 ∧
        (runAttempt seed ((keys.zip values).take (keys.length % 2 ^ 32))
            (keys.length % 2 ^ 32) (geometryFrom (keys.length % 2 ^ 32) 0)
            (blockBitsOf 1) fun _ => 0).2 ≠ none ∧
        ∀ key, recover f key < f.plaintext_modulo) := by
  rcases keys with _ | ⟨k, _ | ⟨k2, rest⟩⟩
  · refine ⟨?_, rfl, rfl, rfl, ?_⟩
    · by_cases hv : ([] : List bff_key_t).length = values.length
      · have hv2 : values = [] := List.length_eq_zero.mp hv.symm
        subst hv2
        by_cases hp : p < 256
        · unfold construct
          rw [if_neg (by simp),
            if_neg (by simp [are_all_keys_distinct, allKeysDistinctGo]), if_pos hp]
          simp
        · rw [construct_nil seed p lab hp]
          simp
      · unfold construct
        rw [if_pos hv]
        simp
    · intro hlen hp
      have hv2 : values = [] := List.length_eq_zero.mp hlen.symm
      subst hv2
      rw [construct_nil seed p lab (by omega)]
      refine ⟨_, rfl, rfl, rfl, rfl, ?_, ?_⟩
      · intro hc
        have hc2 : (some ((fun _ => 0, fun _ => 0) : (Nat → Nat) × (Nat → Nat)) :
            Option ((Nat → Nat) × (Nat → Nat))) = none := hc
        exact Option.noConfusion hc2
      · intro key
        apply recover_lt_modulo
        show 0 < p
        omega
  · refine ⟨?_, ?_, ?_, ?_, ?_⟩
    case refine_2 => show (geometryFrom 1 0).segment_length = 4 ; rw [g12_one]
    case refine_3 => show (geometryFrom 1 0).segment_count = 1 ; rw [g12_one]
    case refine_4 => show (geometryFrom 1 0).array_length = 12 ; rw [g12_one]
    · by_cases hv : ([k] : List bff_key_t).length = values.length
      · obtain ⟨v, rfl⟩ := List.length_eq_one.mp hv.symm
        by_cases hp : p < 256
        · unfold construct
          rw [if_neg (by simp),
            if_neg (by simp [are_all_keys_distinct, allKeysDistinctGo]), if_pos hp]
          simp
        · obtain ⟨s, hok, _⟩ := construct_single seed k v p lab hp
          rw [hok]
          simp
      · unfold construct
        rw [if_pos hv]
        simp
    · intro hlen hp
      obtain ⟨v, rfl⟩ := List.length_eq_one.mp hlen.symm
      obtain ⟨s, hok, hatt⟩ := construct_single seed k v p lab (by omega)
      rw [show ([k] : List bff_key_t).length % 2 ^ 32 = 1 from rfl]
      rw [g12_one]
      rw [show ([k].zip [v]).take 1 = [(k, v)] from rfl]
      rw [bb_one]
      refine ⟨_, hok, rfl, rfl, rfl, ?_, ?_⟩
      · intro hc
        rw [hatt] at hc
        exact Option.noConfusion hc
      · intro key
        apply recover_lt_modulo
        show 0 < p
        omega
  · exfalso
    simp [List.length_cons] at hkeys

theorem construct_small_keycount_witness :
    construct exSeed [exKey] [0] 257 0 ≠ .error .constructionFailed ∧
    ∃ f, construct exSeed [exKey] [0] 257 0 = .ok f ∧
      f.segment_length = 4 ∧ f.segment_count = 1 ∧ f.array_length = 12 ∧
      (runAttempt exSeed (([exKey].zip [0]).take ([exKey].length % 2 ^ 32))
          ([exKey].length % 2 ^ 32) (geometryFrom ([exKey].length % 2 ^ 32) 0)
          (blockBitsOf 1) fun _ => 0).2 ≠ none ∧
      ∀ key, recover f key < f.plaintext_modulo :=
  ⟨(construct_small_keycount exSeed [exKey] [0] 257 0 (by decide)).1,
   (construct_small_keycount exSeed [exKey] [0] 257 0 (by decide)).2.2.2.2
     (by decide) (by decide)⟩

end BffKvMap
